import Mathlib

/-!
Security defaults of the runAsUser admission controller

A shallow embedding of `pkg/controller/security_defaults.go`:
`random`, `ApplySecurityDefaults` and `patchContainers`, with the parts of the
Kubernetes API objects these functions read.

Pointers of the Go code are `Option`s (`nil` is `none`), slices are `List`s,
`int64` and `int` values are `Int`s (the only arithmetic, in `random`, stays
below `2^31`), and a `([]patchOperation, error)` result is a `Result` holding
both components.
-/

namespace Controller

/-! ## Data model -/

/-- The fields of `metav1.GroupVersionResource`. -/
structure GroupVersionResource where
  Group : String
  Version : String
  Resource : String
deriving DecidableEq, Repr

/-- The fields of `corev1.Capabilities`: the added and the dropped capabilities. -/
structure Capabilities where
  Add : List String
  Drop : List String
deriving DecidableEq, Repr

/-- The fields of `corev1.SeccompProfile`; the field `Type` is written `Type_`. -/
structure SeccompProfile where
  Type_ : String
  LocalhostProfile : Option String
deriving DecidableEq, Repr

/-- The fields of the container-level `corev1.SecurityContext`. The three fields that
`patchContainers` reads are kept with their structure; the others are kept as
optional scalars so that "not set" can be stated for them. -/
structure SecurityContext where
  Capabilities : Option Capabilities
  Privileged : Option Bool
  SELinuxOptions : Option String
  WindowsOptions : Option String
  RunAsUser : Option Int
  RunAsGroup : Option Int
  RunAsNonRoot : Option Bool
  ReadOnlyRootFilesystem : Option Bool
  AllowPrivilegeEscalation : Option Bool
  ProcMount : Option String
  SeccompProfile : Option SeccompProfile
deriving DecidableEq, Repr

/-- The part of `corev1.Container` that the controller reads, with the container name. -/
structure Container where
  Name : String
  SecurityContext : Option SecurityContext
deriving DecidableEq, Repr

/-- The part of `corev1.PodSecurityContext` that the controller reads. -/
structure PodSecurityContext where
  RunAsUser : Option Int
  RunAsNonRoot : Option Bool
deriving DecidableEq, Repr

/-- The part of `corev1.PodSpec` that the controller reads. -/
structure PodSpec where
  SecurityContext : Option PodSecurityContext
  Containers : List Container
  InitContainers : List Container
deriving DecidableEq, Repr

/-- A `corev1.Pod`, reduced to its spec. -/
structure Pod where
  Spec : PodSpec
deriving DecidableEq, Repr

/-- The raw bytes of `runtime.RawExtension`. -/
structure RawExtension where
  Raw : List Nat
deriving DecidableEq, Repr

/-- The part of `v1.AdmissionRequest` that the controller reads. -/
structure AdmissionRequest where
  Resource : GroupVersionResource
  Object : RawExtension
deriving DecidableEq, Repr

/-- The dynamic values stored in the `Value interface{}` field of a patch: a `bool`,
an `int`, a `corev1.SecurityContext`, a `*corev1.Capabilities` or a
`*corev1.SeccompProfile`. -/
inductive PatchValue where
  | bool (b : Bool)
  | int (n : Int)
  | securityContext (sc : SecurityContext)
  | capabilities (c : Capabilities)
  | seccompProfile (p : SeccompProfile)
deriving DecidableEq, Repr

/-- Modelled from the spec: the struct `patchOperation` is declared in another file of
the package; the spec describes it as an instruction with an operation, a
JSON-Pointer-style path and an arbitrary structured value, which are the three fields
`Op`, `Path` and `Value` that `security_defaults.go` fills in. -/
structure patchOperation where
  Op : String
  Path : String
  Value : PatchValue
deriving DecidableEq, Repr

/-- The Go error values the function can return, with their messages. -/
inductive Error where
  | deserialize (msg : String)
  | conflict (msg : String)
deriving DecidableEq, Repr

/-- The pair `([]patchOperation, error)` returned by `ApplySecurityDefaults`; a `nil`
slice is the empty list and a `nil` error is `none`. -/
structure Result where
  patches : List patchOperation
  err : Option Error
deriving DecidableEq, Repr

/-! ## The code -/

/-- The package variable `podResource`. -/
def podResource : GroupVersionResource :=
  { Group := "", Version := "v1", Resource := "pods" }

/-- The constant `corev1.SeccompProfileTypeRuntimeDefault`. -/
def SeccompProfileTypeRuntimeDefault : String := "RuntimeDefault"

/-- The function `random`. Its argument `Intn` is `rand.Intn` on the current state of the
global generator, which is called once. -/
def random (Intn : Int → Int) : Int :=
  let max : Int := 1000999999
  let min : Int := 1000000000
  Intn (max - min) + min

/-- The contract of `rand.Intn`: for a positive `n` it yields `r` with `0 ≤ r < n`. -/
def IntnSpec (Intn : Int → Int) : Prop :=
  ∀ n : Int, 0 < n → 0 ≤ Intn n ∧ Intn n < n

/-- The verb `%d` of `fmt.Sprintf` on a slice index. -/
def fmtD (i : Nat) : String := Nat.repr i

/-- The `SecurityContext` literal `defaultContext` of `patchContainers`: the fields that
the literal does not name are `nil`. -/
def defaultContext : SecurityContext :=
  let allowPrivileged := false
  { Capabilities := some { Add := [], Drop := ["ALL"] }
    Privileged := none
    SELinuxOptions := none
    WindowsOptions := none
    RunAsUser := none
    RunAsGroup := none
    RunAsNonRoot := none
    ReadOnlyRootFilesystem := none
    AllowPrivilegeEscalation := some allowPrivileged
    ProcMount := none
    SeccompProfile := some { Type_ := SeccompProfileTypeRuntimeDefault, LocalhostProfile := none } }

/-- The body of the `for i, container := range containers` loop of `patchContainers`,
as a function of the slice `patches` built so far. -/
def patchContainersBody (key : String) (i : Nat) (container : Container)
    (patches : List patchOperation) : List patchOperation :=
  match container.SecurityContext with
  | none =>
    patches ++ [{ Op := "add"
                  Path := "/spec/" ++ key ++ "/" ++ fmtD i ++ "/securityContext"
                  Value := PatchValue.securityContext defaultContext }]
  | some sc =>
    let patches :=
      if sc.AllowPrivilegeEscalation = none then
        patches ++ [{ Op := "add"
                      Path := "/spec/" ++ key ++ "/" ++ fmtD i
                        ++ "/securityContext/allowPrivilegeEscalation"
                      Value := PatchValue.bool false }]
      else patches
    let patches :=
      if sc.Capabilities = none then
        patches ++ [{ Op := "add"
                      Path := "/spec/" ++ key ++ "/" ++ fmtD i ++ "/securityContext/capabilities"
                      Value := PatchValue.capabilities { Add := [], Drop := ["ALL"] } }]
      else patches
    let patches :=
      if sc.SeccompProfile = none then
        patches ++ [{ Op := "add"
                      Path := "/spec/" ++ key ++ "/" ++ fmtD i ++ "/securityContext/seccompProfile"
                      Value := PatchValue.seccompProfile
                        { Type_ := SeccompProfileTypeRuntimeDefault, LocalhostProfile := none } }]
      else patches
    patches

/-- The loop of `patchContainers`, from index `i` on, over the rest of the slice. -/
def patchContainersLoop (key : String) :
    Nat → List Container → List patchOperation → List patchOperation
  | _, [], patches => patches
  | i, container :: rest, patches =>
    patchContainersLoop key (i + 1) rest (patchContainersBody key i container patches)

/-- The function `patchContainers`. -/
def patchContainers (key : String) (containers : List Container) : List patchOperation :=
  patchContainersLoop key 0 containers []

/-- The variable `runAsNonRoot` of `ApplySecurityDefaults` once lines 50 to 55 have run:
`nil` when the pod has no security context, else the field of that context. -/
def podRunAsNonRoot (pod : Pod) : Option Bool :=
  match pod.Spec.SecurityContext with
  | some sc => sc.RunAsNonRoot
  | none => none

/-- The variable `runAsUser` of `ApplySecurityDefaults` once lines 50 to 55 have run. -/
def podRunAsUser (pod : Pod) : Option Int :=
  match pod.Spec.SecurityContext with
  | some sc => sc.RunAsUser
  | none => none

/-- The function `ApplySecurityDefaults`. The package variable `universalDeserializer`
is declared in another file: its `Decode` is the argument `decode`, which yields the
decoded pod or the error message. `Intn` is `rand.Intn`. The `log.Printf` of the first
branch writes to the log only and is left out. -/
def ApplySecurityDefaults (decode : List Nat → Except String Pod) (Intn : Int → Int)
    (req : AdmissionRequest) : Result :=
  if req.Resource ≠ podResource then
    { patches := [], err := none }
  else
    let raw := req.Object.Raw
    match decode raw with
    | Except.error err =>
      { patches := [], err := some (Error.deserialize ("could not deserialize pod object: " ++ err)) }
    | Except.ok pod =>
      let runAsNonRoot : Option Bool := podRunAsNonRoot pod
      let runAsUser : Option Int := podRunAsUser pod
      let patches : List patchOperation := []
      match runAsNonRoot with
      | none =>
        let patches := patches ++ [{ Op := "add"
                                     Path := "/spec/securityContext/runAsNonRoot"
                                     Value := PatchValue.bool
                                       (match runAsUser with
                                        | none => true
                                        | some u => decide (u ≠ 0)) }]
        let patches :=
          match runAsUser with
          | none =>
            patches ++ [{ Op := "add"
                          Path := "/spec/securityContext/runAsUser"
                          Value := PatchValue.int (random Intn) }]
          | some _ => patches
        let patches := patches ++ patchContainers "containers" pod.Spec.Containers
        let patches := patches ++ patchContainers "initContainers" pod.Spec.InitContainers
        { patches := patches, err := none }
      | some nonRoot =>
        if (nonRoot == true && (match runAsUser with
                                | none => false
                                | some u => decide (u = 0))) = true then
          { patches := []
            err := some (Error.conflict
              "runAsNonRoot specified, but runAsUser set to 0 (the root user)") }
        else
          let patches := patches ++ patchContainers "containers" pod.Spec.Containers
          let patches := patches ++ patchContainers "initContainers" pod.Spec.InitContainers
          { patches := patches, err := none }

/-! ## Vocabulary of the statements -/

/-- The path `pre` is an initial segment of the path `p`. -/
def beginsWith (p pre : String) : Prop := pre.data <+: p.data

instance (p pre : String) : Decidable (beginsWith p pre) :=
  inferInstanceAs (Decidable (pre.data <+: p.data))

/-- The path of the element of index `i` of the collection `key`, with the slash that
ends the index: every patch for that element has a path that begins with it. -/
def containerPath (key : String) (i : Nat) : String :=
  "/spec/" ++ key ++ "/" ++ fmtD i ++ "/"

/-- The patches of `out` that address the element of index `i` of the collection `key`. -/
def patchesFor (key : String) (i : Nat) (out : List patchOperation) : List patchOperation :=
  out.filter (fun p => decide (beginsWith p.Path (containerPath key i)))

/-- The patches of `out` that address the pod-level security context. -/
def podWidePatches (out : List patchOperation) : List patchOperation :=
  out.filter (fun p => decide (beginsWith p.Path "/spec/securityContext"))

/-- The ends of the paths that `patchContainers` writes after the index of an element:
the security context itself and its three defaulted fields. -/
def pathSuffixes : List String :=
  ["/securityContext", "/securityContext/allowPrivilegeEscalation",
   "/securityContext/capabilities", "/securityContext/seccompProfile"]

/-- The container has a security context that sets `allowPrivilegeEscalation`,
`capabilities` and `seccompProfile`. -/
def allThreeSet (c : Container) : Prop :=
  ∃ sc, c.SecurityContext = some sc ∧ sc.AllowPrivilegeEscalation ≠ none
    ∧ sc.Capabilities ≠ none ∧ sc.SeccompProfile ≠ none

/-- The patches of `out` follow the order of the indices of the collection `key`: of two
patches, the one that comes first lies under an index that is not greater. -/
def indexOrdered (key : String) (out : List patchOperation) : Prop :=
  out.Pairwise (fun p q => ∀ i j : Nat, beginsWith p.Path (containerPath key i) →
    beginsWith q.Path (containerPath key j) → i ≤ j)

/-- Every patch of `out` has a path `/spec/<key>/<i>/securityContext[/<field>]` with
`i` an index of the list `cs`. -/
def indexedPaths (key : String) (cs : List Container) (out : List patchOperation) : Prop :=
  ∀ p ∈ out, ∃ i : Nat, i < cs.length ∧ ∃ suf ∈ pathSuffixes,
    p.Path = "/spec/" ++ key ++ "/" ++ fmtD i ++ suf

/-- The value of a decimal digit string read from the left, starting from `acc`. -/
def decimalValue (l : List Char) (acc : Nat) : Nat :=
  l.foldl (fun a c => 10 * a + (c.toNat - 48)) acc


/-! ## Sample inputs -/

/-- A random source within the contract of `rand.Intn`: it yields the largest value. -/
def sampleIntn : Int → Int := fun n => n - 1

/-- A decoder that yields the pod `pod` on every input. -/
def sampleDecode (pod : Pod) : List Nat → Except String Pod := fun _ => Except.ok pod

/-- A request for the pods resource. -/
def sampleReq : AdmissionRequest := { Resource := podResource, Object := { Raw := [] } }

/-- A security context with all fields unset but `allowPrivilegeEscalation`. -/
def scOnlyEscalation : SecurityContext :=
  { Capabilities := none, Privileged := none, SELinuxOptions := none, WindowsOptions := none,
    RunAsUser := none, RunAsGroup := none, RunAsNonRoot := none,
    ReadOnlyRootFilesystem := none, AllowPrivilegeEscalation := some true, ProcMount := none,
    SeccompProfile := none }

/-- A security context that sets the three fields, with capabilities that drop nothing. -/
def scAllSet : SecurityContext :=
  { Capabilities := some { Add := ["NET_ADMIN"], Drop := [] }, Privileged := none,
    SELinuxOptions := none, WindowsOptions := none, RunAsUser := none, RunAsGroup := none,
    RunAsNonRoot := none, ReadOnlyRootFilesystem := none,
    AllowPrivilegeEscalation := some true, ProcMount := none,
    SeccompProfile := some { Type_ := "Unconfined", LocalhostProfile := none } }

/-- Three containers: without security context, with only `allowPrivilegeEscalation`,
and with the three fields set. -/
def sampleContainers : List Container :=
  [{ Name := "app", SecurityContext := none },
   { Name := "sidecar", SecurityContext := some scOnlyEscalation },
   { Name := "agent", SecurityContext := some scAllSet }]

/-- A pod without pod-level security context. -/
def podBare : Pod :=
  { Spec := { SecurityContext := none, Containers := sampleContainers,
              InitContainers := [{ Name := "setup", SecurityContext := none }] } }

/-- A pod with the given pod-level `runAsNonRoot` and `runAsUser`. -/
def podWith (nonRoot : Option Bool) (user : Option Int) : Pod :=
  { Spec := { SecurityContext := some { RunAsUser := user, RunAsNonRoot := nonRoot },
              Containers := sampleContainers,
              InitContainers := [{ Name := "setup", SecurityContext := none }] } }


/-- The part of the output a path belongs to: 0 for the pod-level security context,
1 for the containers, 2 for everything else. -/
def sectionRank (p : String) : Nat :=
  if beginsWith p "/spec/securityContext" then 0
  else if beginsWith p "/spec/containers/" then 1
  else 2

/-- A request for a resource that is not the pods resource. -/
def deploymentReq : AdmissionRequest :=
  { Resource := { Group := "apps", Version := "v1", Resource := "deployments" },
    Object := { Raw := [123, 125] } }

/-- A decoder that fails on every input. -/
def failingDecode : List Nat → Except String Pod := fun _ => Except.error "not a pod"

/-- The patch `q` is the patch `p` moved from the collection `k1` to the collection `k2`:
same operation, same value, and paths that differ in the collection segment only, with
the same index and the same end. -/
def sameButCollection (k1 k2 : String) (p q : patchOperation) : Prop :=
  p.Op = q.Op ∧ p.Value = q.Value
  ∧ ∃ (i : Nat) (suf : String), suf ∈ pathSuffixes
      ∧ p.Path = "/spec/" ++ k1 ++ "/" ++ fmtD i ++ suf
      ∧ q.Path = "/spec/" ++ k2 ++ "/" ++ fmtD i ++ suf

/-- Two patches agree on the operation and the path, and on the value unless the path is
that of the pod-level `runAsUser`. -/
def sameButUserValue (p q : patchOperation) : Prop :=
  p.Op = q.Op ∧ p.Path = q.Path
  ∧ (p.Path ≠ "/spec/securityContext/runAsUser" → p.Value = q.Value)

/-- A second random source within the contract of `rand.Intn`: it yields 0. -/
def zeroIntn : Int → Int := fun _ => 0

/-- The three fields of a container security context that `patchContainers` defaults. -/
inductive ContainerField where
  | allowPrivilegeEscalation
  | capabilities
  | seccompProfile
deriving DecidableEq, Repr

/-- The end of the path of the patch for one field, after the index of the element. -/
def ContainerField.pathEnd : ContainerField → String
  | ContainerField.allowPrivilegeEscalation => "/securityContext/allowPrivilegeEscalation"
  | ContainerField.capabilities => "/securityContext/capabilities"
  | ContainerField.seccompProfile => "/securityContext/seccompProfile"

/-- The field is set in the security context. -/
def ContainerField.setIn : ContainerField → SecurityContext → Prop
  | ContainerField.allowPrivilegeEscalation, sc => sc.AllowPrivilegeEscalation ≠ none
  | ContainerField.capabilities, sc => sc.Capabilities ≠ none
  | ContainerField.seccompProfile, sc => sc.SeccompProfile ≠ none

/-- The field is absent in the container: the container has no security context, or one
that does not set the field. -/
def ContainerField.absentIn (f : ContainerField) (c : Container) : Prop :=
  match c.SecurityContext with
  | none => True
  | some sc => ¬ f.setIn sc

/-- The patch `p` sets the field `f` of the element of index `i` of the collection `key`:
it is the patch at the path of the field, or the patch at the path of the security
context of the element with a context that sets the field. -/
def setsContainerField (key : String) (i : Nat) (f : ContainerField) (p : patchOperation) :
    Prop :=
  p.Path = "/spec/" ++ key ++ "/" ++ fmtD i ++ f.pathEnd
  ∨ (p.Path = "/spec/" ++ key ++ "/" ++ fmtD i ++ "/securityContext"
      ∧ ∃ sc, p.Value = PatchValue.securityContext sc ∧ f.setIn sc)

/-- Neither of the two paths is an initial segment of the other; in particular the two
paths differ. -/
def pathsApart (p q : patchOperation) : Prop :=
  ¬ beginsWith q.Path p.Path ∧ ¬ beginsWith p.Path q.Path

/-- Modelled from the spec: the returned patches are applied by the caller of the
controller, outside this package; the spec words a patch as an `add` at a
JSON-Pointer-style path that addresses a field inside the pod object, shipped as a
JSON-patch document. This is the effect of one patch on the pod-level security context:
the patch of a field sets that field in the context that the pod has. On a pod without
pod-level security context the path addresses nothing and the context stays absent. -/
def applyToPodContext (sc : Option PodSecurityContext) (p : patchOperation) :
    Option PodSecurityContext :=
  if p.Op = "add" then
    if p.Path = "/spec/securityContext/runAsNonRoot" then
      match p.Value, sc with
      | PatchValue.bool b, some s => some { RunAsUser := s.RunAsUser, RunAsNonRoot := some b }
      | _, _ => sc
    else if p.Path = "/spec/securityContext/runAsUser" then
      match p.Value, sc with
      | PatchValue.int n, some s => some { RunAsUser := some n, RunAsNonRoot := s.RunAsNonRoot }
      | _, _ => sc
    else sc
  else sc

/-- Modelled from the spec: the effect of one `add` patch on the element of index `i` of
the collection `key`. The patch at the path of the security context of the element sets
the whole context; the patch at the path of a field sets that field in the context that
the element has. Every other patch leaves the element as it is. -/
def applyToContainer (key : String) (i : Nat) (c : Container) (p : patchOperation) :
    Container :=
  if p.Op = "add" then
    if p.Path = "/spec/" ++ key ++ "/" ++ fmtD i ++ "/securityContext" then
      match p.Value with
      | PatchValue.securityContext sc => { Name := c.Name, SecurityContext := some sc }
      | _ => c
    else if p.Path = "/spec/" ++ key ++ "/" ++ fmtD i
        ++ "/securityContext/allowPrivilegeEscalation" then
      match p.Value, c.SecurityContext with
      | PatchValue.bool b, some sc =>
        { Name := c.Name, SecurityContext := some { sc with AllowPrivilegeEscalation := some b } }
      | _, _ => c
    else if p.Path = "/spec/" ++ key ++ "/" ++ fmtD i ++ "/securityContext/capabilities" then
      match p.Value, c.SecurityContext with
      | PatchValue.capabilities caps, some sc =>
        { Name := c.Name, SecurityContext := some { sc with Capabilities := some caps } }
      | _, _ => c
    else if p.Path = "/spec/" ++ key ++ "/" ++ fmtD i ++ "/securityContext/seccompProfile" then
      match p.Value, c.SecurityContext with
      | PatchValue.seccompProfile prof, some sc =>
        { Name := c.Name, SecurityContext := some { sc with SeccompProfile := some prof } }
      | _, _ => c
    else c
  else c

/-- Modelled from the spec: the effect of one patch on the elements of the collection
`key`, from the index `i` on. -/
def applyToContainers (key : String) (p : patchOperation) : Nat → List Container → List Container
  | _, [] => []
  | i, c :: cs => applyToContainer key i c p :: applyToContainers key p (i + 1) cs

/-- Modelled from the spec: the effect of one patch on the parts of the pod that it
addresses. -/
def patchEffect (pod : Pod) (p : patchOperation) : Pod :=
  { Spec := { SecurityContext := applyToPodContext pod.Spec.SecurityContext p
              Containers := applyToContainers "containers" p 0 pod.Spec.Containers
              InitContainers := applyToContainers "initContainers" p 0 pod.Spec.InitContainers } }

/-- Modelled from the spec: the effect of the patches, in their order. -/
def patchEffects (pod : Pod) (ps : List patchOperation) : Pod :=
  ps.foldl patchEffect pod

/-- Modelled from the spec: the patch addresses a field of the pod-level security
context that the pod has, with a value of the type of the field. -/
def podContextAddressed (sc : Option PodSecurityContext) (p : patchOperation) : Bool :=
  sc.isSome
  && ((decide (p.Path = "/spec/securityContext/runAsNonRoot")
        && (match p.Value with
            | PatchValue.bool _ => true
            | _ => false))
      || (decide (p.Path = "/spec/securityContext/runAsUser")
        && (match p.Value with
            | PatchValue.int _ => true
            | _ => false)))

/-- Modelled from the spec: the patch addresses the element of index `i` of the
collection `key`: its security context, with a context as value, or a field of the
security context that the element has, with a value of the type of the field. -/
def elementAddressed (key : String) (i : Nat) (c : Container) (p : patchOperation) : Bool :=
  (decide (p.Path = "/spec/" ++ key ++ "/" ++ fmtD i ++ "/securityContext")
    && (match p.Value with
        | PatchValue.securityContext _ => true
        | _ => false))
  || (c.SecurityContext.isSome
    && ((decide (p.Path = "/spec/" ++ key ++ "/" ++ fmtD i
            ++ "/securityContext/allowPrivilegeEscalation")
          && (match p.Value with
              | PatchValue.bool _ => true
              | _ => false))
        || (decide (p.Path = "/spec/" ++ key ++ "/" ++ fmtD i ++ "/securityContext/capabilities")
          && (match p.Value with
              | PatchValue.capabilities _ => true
              | _ => false))
        || (decide (p.Path = "/spec/" ++ key ++ "/" ++ fmtD i
            ++ "/securityContext/seccompProfile")
          && (match p.Value with
              | PatchValue.seccompProfile _ => true
              | _ => false))))

/-- Modelled from the spec: the patch addresses an element of the collection `key`, from
the index `i` on. -/
def collectionAddressed (key : String) (p : patchOperation) : Nat → List Container → Bool
  | _, [] => false
  | i, c :: cs => elementAddressed key i c p || collectionAddressed key p (i + 1) cs

/-- Modelled from the spec: the patch can be applied to the pod: it is an `add` whose
path addresses a field, or a container security context, inside the pod object. A patch
whose path leads through an object that the pod does not have cannot be applied. -/
def applicable (pod : Pod) (p : patchOperation) : Bool :=
  decide (p.Op = "add")
  && (podContextAddressed pod.Spec.SecurityContext p
      || collectionAddressed "containers" p 0 pod.Spec.Containers
      || collectionAddressed "initContainers" p 0 pod.Spec.InitContainers)

/-- Modelled from the spec: the application of one patch, which fails when the patch
cannot be applied. -/
def applyPatch (pod : Pod) (p : patchOperation) : Option Pod :=
  if applicable pod p = true then some (patchEffect pod p) else none

/-- Modelled from the spec: the application of the patches in their order; it fails when
one of them does. -/
def applyPatches : Pod → List patchOperation → Option Pod
  | pod, [] => some pod
  | pod, p :: ps =>
    match applyPatch pod p with
    | some patched => applyPatches patched ps
    | none => none

/-- The elements of a collection, from the index `i` on, each after all the patches. -/
def patchedContainers (key : String) (ps : List patchOperation) :
    Nat → List Container → List Container
  | _, [] => []
  | i, c :: cs =>
    ps.foldl (applyToContainer key i) c :: patchedContainers key ps (i + 1) cs

/-- A pod without pod-level security context and without containers. -/
def podEmpty : Pod :=
  { Spec := { SecurityContext := none, Containers := [], InitContainers := [] } }

/-! ## Decimal indices -/

theorem digitChar_value (k : Nat) (h : k < 10) : (Nat.digitChar k).toNat - 48 = k := by
  interval_cases k <;> rfl

theorem digitChar_ne_slash (k : Nat) (h : k < 10) : Nat.digitChar k ≠ '/' := by
  interval_cases k <;> decide

theorem decimalValue_toDigitsCore (fuel : Nat) : ∀ (n : Nat) (ds : List Char), n < fuel →
    decimalValue (Nat.toDigitsCore 10 fuel n ds) 0 = decimalValue ds n := by
  induction fuel with
  | zero => intro n ds h; omega
  | succ fuel ih =>
    intro n ds h
    have hd := digitChar_value (n % 10) (Nat.mod_lt _ (by decide))
    simp only [Nat.toDigitsCore]
    split
    · rename_i h0
      have : n < 10 := by omega
      simp only [decimalValue, List.foldl_cons, hd]
      congr 1
      omega
    · rename_i h0
      rw [ih (n / 10) _ (by omega)]
      simp only [decimalValue, List.foldl_cons, hd]
      congr 1
      omega

theorem toDigits_injective (i j : Nat) (h : Nat.toDigits 10 i = Nat.toDigits 10 j) : i = j := by
  have hi := decimalValue_toDigitsCore (i + 1) i [] (by omega)
  have hj := decimalValue_toDigitsCore (j + 1) j [] (by omega)
  simp only [Nat.toDigits] at h
  rw [h, hj] at hi
  simpa [decimalValue] using hi.symm

theorem toDigitsCore_no_slash (fuel : Nat) : ∀ (n : Nat) (ds : List Char),
    (∀ c ∈ ds, c ≠ '/') → ∀ c ∈ Nat.toDigitsCore 10 fuel n ds, c ≠ '/' := by
  induction fuel with
  | zero => intro n ds h; simpa [Nat.toDigitsCore] using h
  | succ fuel ih =>
    intro n ds h
    have hd := digitChar_ne_slash (n % 10) (Nat.mod_lt _ (by decide))
    have hds : ∀ c ∈ Nat.digitChar (n % 10) :: ds, c ≠ '/' := by
      intro c hc
      rcases List.mem_cons.1 hc with rfl | hc
      · exact hd
      · exact h c hc
    simp only [Nat.toDigitsCore]
    split
    · exact hds
    · exact ih _ _ hds

theorem toDigits_no_slash (n : Nat) : ∀ c ∈ Nat.toDigits 10 n, c ≠ '/' :=
  toDigitsCore_no_slash _ _ _ (by simp)

/-- Two slash-free strings, each followed by a slash, one text an initial segment of the
other: the two strings are equal and the rests are in the same relation. -/
theorem slash_split : ∀ (a b x y : List Char), (∀ c ∈ a, c ≠ '/') → (∀ c ∈ b, c ≠ '/') →
    (a ++ '/' :: x) <+: (b ++ '/' :: y) → a = b ∧ x <+: y := by
  intro a
  induction a with
  | nil =>
    intro b x y _ hb h
    cases b with
    | nil =>
      refine ⟨rfl, ?_⟩
      simpa using h
    | cons c b =>
      exfalso
      have := List.cons_prefix_cons.1 (by simpa using h)
      exact hb c (by simp) this.1.symm
  | cons c a ih =>
    intro b x y ha hb h
    cases b with
    | nil =>
      exfalso
      have := List.cons_prefix_cons.1 (by simpa using h)
      exact ha c (by simp) this.1
    | cons d b =>
      have := List.cons_prefix_cons.1 (by simpa using h)
      obtain ⟨h1, h2⟩ := ih b x y (fun c hc => ha c (by simp [hc]))
        (fun c hc => hb c (by simp [hc])) this.2
      exact ⟨by rw [this.1, h1], h2⟩

/-! ## Paths -/

theorem fmtD_data (i : Nat) : (fmtD i).data = Nat.toDigits 10 i := rfl

theorem containerPath_data (key : String) (i : Nat) :
    (containerPath key i).data
      = "/spec/".data ++ (key.data ++ '/' :: (Nat.toDigits 10 i ++ ['/'])) := by
  simp [containerPath, String.data_append, fmtD_data]

/-- The index of an element is determined by the text up to the slash after it. -/
theorem digits_slash_inj (i j : Nat) (x y : List Char)
    (h : (Nat.toDigits 10 i ++ '/' :: x) <+: (Nat.toDigits 10 j ++ '/' :: y)) : i = j :=
  toDigits_injective i j (slash_split _ _ x y (toDigits_no_slash i) (toDigits_no_slash j) h).1

/-- A path lies under the path of one element only. -/
theorem containerPath_unique (key p : String) (i j : Nat)
    (hi : beginsWith p (containerPath key i)) (hj : beginsWith p (containerPath key j)) :
    i = j := by
  unfold beginsWith at hi hj
  rw [containerPath_data] at hi hj
  rcases List.prefix_or_prefix_of_prefix hi hj with h | h
  · rw [List.prefix_append_right_inj, List.prefix_append_right_inj,
      List.cons_prefix_cons] at h
    exact digits_slash_inj i j [] [] h.2
  · rw [List.prefix_append_right_inj, List.prefix_append_right_inj,
      List.cons_prefix_cons] at h
    exact (digits_slash_inj j i [] [] h.2).symm

/-! ## The loop of `patchContainers` -/

theorem patchContainersBody_append (key : String) (i : Nat) (c : Container)
    (ps : List patchOperation) :
    patchContainersBody key i c ps = ps ++ patchContainersBody key i c [] := by
  unfold patchContainersBody
  cases c.SecurityContext with
  | none => simp
  | some sc => dsimp only; split_ifs <;> simp

theorem patchContainersLoop_append (key : String) : ∀ (cs : List Container) (i : Nat)
    (ps : List patchOperation),
    patchContainersLoop key i cs ps = ps ++ patchContainersLoop key i cs [] := by
  intro cs
  induction cs with
  | nil => intro i ps; simp [patchContainersLoop]
  | cons c cs ih =>
    intro i ps
    simp only [patchContainersLoop]
    rw [ih (i + 1) (patchContainersBody key i c ps), ih (i + 1) (patchContainersBody key i c []),
      patchContainersBody_append key i c ps, List.append_assoc]

theorem patchContainersLoop_cons (key : String) (i : Nat) (c : Container)
    (cs : List Container) :
    patchContainersLoop key i (c :: cs) []
      = patchContainersBody key i c [] ++ patchContainersLoop key (i + 1) cs [] := by
  simp only [patchContainersLoop]
  exact patchContainersLoop_append key cs (i + 1) _

/-- The output of the loop is that of the elements before index `k`, then that of the
element of index `k`, then that of the elements after it. -/
theorem patchContainersLoop_split (key : String) : ∀ (cs : List Container) (s k : Nat)
    (h : k < cs.length),
    patchContainersLoop key s cs []
      = patchContainersLoop key s (cs.take k) []
        ++ patchContainersBody key (s + k) (cs.get ⟨k, h⟩) []
        ++ patchContainersLoop key (s + k + 1) (cs.drop (k + 1)) [] := by
  intro cs
  induction cs with
  | nil => intro s k h; simp at h
  | cons c cs ih =>
    intro s k h
    cases k with
    | zero => rw [patchContainersLoop_cons]; simp [patchContainersLoop]
    | succ k =>
      have hk : k < cs.length := by simpa using h
      rw [patchContainersLoop_cons, ih (s + 1) k hk]
      simp only [List.take_succ_cons, List.drop_succ_cons, patchContainersLoop_cons,
        List.get_cons_succ, List.append_assoc]
      have e : s + 1 + k = s + (k + 1) := by omega
      rw [e]

/-- Every patch of the loop comes from the body run on one element, at its index. -/
theorem patchContainersLoop_mem (key : String) : ∀ (cs : List Container) (s : Nat)
    (p : patchOperation), p ∈ patchContainersLoop key s cs [] →
    ∃ (k : Nat) (h : k < cs.length), p ∈ patchContainersBody key (s + k) (cs.get ⟨k, h⟩) [] := by
  intro cs
  induction cs with
  | nil => intro s p hp; simp [patchContainersLoop] at hp
  | cons c cs ih =>
    intro s p hp
    rw [patchContainersLoop_cons, List.mem_append] at hp
    rcases hp with hp | hp
    · exact ⟨0, by simp, by simpa using hp⟩
    · obtain ⟨k, hk, hmem⟩ := ih (s + 1) p hp
      refine ⟨k + 1, by simpa using hk, ?_⟩
      have e : s + 1 + k = s + (k + 1) := by omega
      rw [e] at hmem
      simpa using hmem

/-- The patches of the body lie under the path of the element. -/
theorem patchContainersBody_begins (key : String) (i : Nat) (c : Container) :
    ∀ p ∈ patchContainersBody key i c [], beginsWith p.Path (containerPath key i) := by
  unfold patchContainersBody
  cases c.SecurityContext with
  | none => simp [beginsWith, containerPath_data, String.data_append, fmtD_data]
  | some sc =>
    dsimp only
    split_ifs <;> simp [beginsWith, containerPath_data, String.data_append, fmtD_data]


/-! ## Patches selected by their path -/

theorem patchesFor_append (key : String) (i : Nat) (xs ys : List patchOperation) :
    patchesFor key i (xs ++ ys) = patchesFor key i xs ++ patchesFor key i ys := by
  simp [patchesFor]

theorem podWidePatches_append (xs ys : List patchOperation) :
    podWidePatches (xs ++ ys) = podWidePatches xs ++ podWidePatches ys := by
  simp [podWidePatches]

theorem patchesFor_body_self (key : String) (i : Nat) (c : Container) :
    patchesFor key i (patchContainersBody key i c []) = patchContainersBody key i c [] := by
  unfold patchesFor
  rw [List.filter_eq_self]
  intro p hp
  simpa using patchContainersBody_begins key i c p hp

theorem patchesFor_loop_other (key : String) (i s : Nat) (cs : List Container)
    (h : ∀ k, k < cs.length → s + k ≠ i) :
    patchesFor key i (patchContainersLoop key s cs []) = [] := by
  unfold patchesFor
  rw [List.filter_eq_nil_iff]
  intro p hp hb
  obtain ⟨k, hk, hmem⟩ := patchContainersLoop_mem key cs s p hp
  have hb2 := patchContainersBody_begins key (s + k) _ p hmem
  exact h k hk (containerPath_unique key p.Path _ _ hb2 (by simpa using hb))

/-- The patches of `patchContainers` under the path of the element of index `i` are
the ones that the loop body emits for that element. -/
theorem patchesFor_patchContainers (key : String) (cs : List Container) (i : Nat)
    (h : i < cs.length) :
    patchesFor key i (patchContainers key cs) = patchContainersBody key i (cs.get ⟨i, h⟩) [] := by
  unfold patchContainers
  rw [patchContainersLoop_split key cs 0 i h, patchesFor_append, patchesFor_append,
    patchesFor_loop_other key i 0 (cs.take i), patchesFor_loop_other key i (0 + i + 1)]
  · simp [patchesFor_body_self]
  · intro k _; omega
  · intro k hk
    have : k < i := lt_of_lt_of_le hk (List.length_take_le i cs)
    omega

theorem patchesFor_patchContainers_none (key : String) (cs : List Container) (i : Nat)
    (h : cs.length ≤ i) : patchesFor key i (patchContainers key cs) = [] :=
  patchesFor_loop_other key i 0 cs (fun k hk => by omega)

/-- The paths of the three collections are told apart by their seventh character. -/
theorem collections_apart (p : String) (i : Nat) :
    (beginsWith p (containerPath "containers" i) → ¬ beginsWith p "/spec/securityContext")
    ∧ (beginsWith p (containerPath "initContainers" i) → ¬ beginsWith p "/spec/securityContext")
    ∧ (∀ j, beginsWith p (containerPath "containers" i) →
        ¬ beginsWith p (containerPath "initContainers" j)) := by
  refine ⟨?_, ?_, ?_⟩
  · intro h1 h2
    unfold beginsWith at h1 h2
    rw [containerPath_data] at h1
    rcases List.prefix_or_prefix_of_prefix h1 h2 with h | h <;> simp at h
  · intro h1 h2
    unfold beginsWith at h1 h2
    rw [containerPath_data] at h1
    rcases List.prefix_or_prefix_of_prefix h1 h2 with h | h <;> simp at h
  · intro j h1 h2
    unfold beginsWith at h1 h2
    rw [containerPath_data] at h1 h2
    rcases List.prefix_or_prefix_of_prefix h1 h2 with h | h <;> simp at h


/-! ## The pod-level decision -/

theorem random_range (Intn : Int → Int) (h : IntnSpec Intn) :
    1000000000 ≤ random Intn ∧ random Intn ≤ 1000999998 := by
  have := h (1000999999 - 1000000000) (by decide)
  simp only [random]
  omega

theorem sampleIntn_spec : IntnSpec sampleIntn := by
  intro n hn
  simp only [sampleIntn]
  omega

/-- No patch of `patchContainers` on one of the two collections of a pod lies under the
pod-level security context. -/
theorem patchContainers_not_podWide (cs : List Container) :
    (∀ p ∈ patchContainers "containers" cs, ¬ beginsWith p.Path "/spec/securityContext")
    ∧ (∀ p ∈ patchContainers "initContainers" cs,
        ¬ beginsWith p.Path "/spec/securityContext") := by
  constructor
  · intro p hp
    obtain ⟨k, hk, hmem⟩ := patchContainersLoop_mem _ cs 0 p hp
    exact (collections_apart p.Path (0 + k)).1 (patchContainersBody_begins _ _ _ p hmem)
  · intro p hp
    obtain ⟨k, hk, hmem⟩ := patchContainersLoop_mem _ cs 0 p hp
    exact (collections_apart p.Path (0 + k)).2.1 (patchContainersBody_begins _ _ _ p hmem)

theorem podWidePatches_patchContainers (cs ics : List Container) :
    podWidePatches (patchContainers "containers" cs ++ patchContainers "initContainers" ics)
      = [] := by
  unfold podWidePatches
  rw [List.filter_eq_nil_iff]
  intro p hp
  rcases List.mem_append.1 hp with hp | hp
  · simpa using (patchContainers_not_podWide cs).1 p hp
  · simpa using (patchContainers_not_podWide ics).2 p hp

/-- The result on a pod whose `runAsNonRoot` is unset. -/
theorem apply_unset (decode : List Nat → Except String Pod) (Intn : Int → Int)
    (req : AdmissionRequest) (pod : Pod) (hres : req.Resource = podResource)
    (hdec : decode req.Object.Raw = Except.ok pod) (hn : podRunAsNonRoot pod = none) :
    ApplySecurityDefaults decode Intn req =
      { patches :=
          [{ Op := "add", Path := "/spec/securityContext/runAsNonRoot",
             Value := PatchValue.bool (match podRunAsUser pod with
                                       | none => true
                                       | some u => decide (u ≠ 0)) }]
          ++ (match podRunAsUser pod with
              | none => [{ Op := "add", Path := "/spec/securityContext/runAsUser",
                           Value := PatchValue.int (random Intn) }]
              | some _ => [])
          ++ patchContainers "containers" pod.Spec.Containers
          ++ patchContainers "initContainers" pod.Spec.InitContainers
        err := none } := by
  simp only [ApplySecurityDefaults, hres, hdec, hn]
  cases podRunAsUser pod <;> simp

/-- The result on a pod whose `runAsNonRoot` is set. -/
theorem apply_set (decode : List Nat → Except String Pod) (Intn : Int → Int)
    (req : AdmissionRequest) (pod : Pod) (b : Bool) (hres : req.Resource = podResource)
    (hdec : decode req.Object.Raw = Except.ok pod) (hn : podRunAsNonRoot pod = some b) :
    ApplySecurityDefaults decode Intn req =
      if b = true ∧ podRunAsUser pod = some 0 then
        { patches := []
          err := some (Error.conflict
            "runAsNonRoot specified, but runAsUser set to 0 (the root user)") }
      else
        { patches := patchContainers "containers" pod.Spec.Containers
            ++ patchContainers "initContainers" pod.Spec.InitContainers
          err := none } := by
  simp only [ApplySecurityDefaults, hres, hdec, hn]
  cases podRunAsUser pod <;> cases b <;> simp

/-! ## The claims about the pod-level decision -/

/-- C1: on a pod whose pod-level `runAsNonRoot` and `runAsUser` are both unset, for every
container and init-container list and every random source that meets the contract of
`rand.Intn`, `ApplySecurityDefaults` succeeds and its output contains the patch
add `/spec/securityContext/runAsNonRoot` = true and a patch
add `/spec/securityContext/runAsUser` = v with 1000000000 ≤ v ≤ 1000999998. -/
theorem C1_both_unset_defaults (decode : List Nat → Except String Pod) (Intn : Int → Int)
    (req : AdmissionRequest) (pod : Pod) (hrand : IntnSpec Intn)
    (hres : req.Resource = podResource) (hdec : decode req.Object.Raw = Except.ok pod)
    (hn : podRunAsNonRoot pod = none) (hu : podRunAsUser pod = none) :
    (ApplySecurityDefaults decode Intn req).err = none
    ∧ { Op := "add", Path := "/spec/securityContext/runAsNonRoot",
        Value := PatchValue.bool true } ∈ (ApplySecurityDefaults decode Intn req).patches
    ∧ ∃ v : Int, 1000000000 ≤ v ∧ v ≤ 1000999998
        ∧ { Op := "add", Path := "/spec/securityContext/runAsUser",
            Value := PatchValue.int v } ∈ (ApplySecurityDefaults decode Intn req).patches := by
  rw [apply_unset decode Intn req pod hres hdec hn, hu]
  refine ⟨rfl, by simp, random Intn, (random_range Intn hrand).1, (random_range Intn hrand).2, ?_⟩
  simp

theorem C1_both_unset_defaults_witness :
    IntnSpec sampleIntn ∧ sampleReq.Resource = podResource
    ∧ podRunAsNonRoot podBare = none ∧ podRunAsUser podBare = none
    ∧ (ApplySecurityDefaults (sampleDecode podBare) sampleIntn sampleReq).err = none
    ∧ { Op := "add", Path := "/spec/securityContext/runAsNonRoot",
        Value := PatchValue.bool true }
        ∈ (ApplySecurityDefaults (sampleDecode podBare) sampleIntn sampleReq).patches
    ∧ ∃ v : Int, 1000000000 ≤ v ∧ v ≤ 1000999998
        ∧ { Op := "add", Path := "/spec/securityContext/runAsUser",
            Value := PatchValue.int v }
          ∈ (ApplySecurityDefaults (sampleDecode podBare) sampleIntn sampleReq).patches :=
  ⟨sampleIntn_spec, rfl, rfl, rfl,
    C1_both_unset_defaults (sampleDecode podBare) sampleIntn sampleReq podBare
      sampleIntn_spec rfl rfl rfl rfl⟩

/-- C2: on a pod whose `runAsNonRoot` is unset and whose `runAsUser` is set to `u`,
`ApplySecurityDefaults` succeeds; its output is the patch
add `/spec/securityContext/runAsNonRoot`, with value false when `u = 0` and true
otherwise, followed by the container and init-container patches; that patch is the only
one under `/spec/securityContext`, and no patch has the path
`/spec/securityContext/runAsUser`. -/
theorem C2_user_set_nonroot_unset (decode : List Nat → Except String Pod) (Intn : Int → Int)
    (req : AdmissionRequest) (pod : Pod) (u : Int)
    (hres : req.Resource = podResource) (hdec : decode req.Object.Raw = Except.ok pod)
    (hn : podRunAsNonRoot pod = none) (hu : podRunAsUser pod = some u) :
    (ApplySecurityDefaults decode Intn req).err = none
    ∧ (ApplySecurityDefaults decode Intn req).patches
        = [{ Op := "add", Path := "/spec/securityContext/runAsNonRoot",
             Value := PatchValue.bool (decide (u ≠ 0)) }]
          ++ patchContainers "containers" pod.Spec.Containers
          ++ patchContainers "initContainers" pod.Spec.InitContainers
    ∧ podWidePatches (ApplySecurityDefaults decode Intn req).patches
        = [{ Op := "add", Path := "/spec/securityContext/runAsNonRoot",
             Value := PatchValue.bool (decide (u ≠ 0)) }]
    ∧ ∀ p ∈ (ApplySecurityDefaults decode Intn req).patches,
        p.Path ≠ "/spec/securityContext/runAsUser" := by
  rw [apply_unset decode Intn req pod hres hdec hn, hu]
  refine ⟨rfl, by simp, ?_, ?_⟩
  · simp only [List.append_nil, List.append_assoc]
    rw [podWidePatches_append, podWidePatches_patchContainers]
    simp only [podWidePatches, List.append_nil]
    rw [List.filter_eq_self]
    intro p hp
    rw [List.mem_singleton] at hp
    subst hp
    simp [beginsWith]
  · intro p hp heq
    rcases List.mem_append.1 hp with hp | hp
    on_goal 1 => rcases List.mem_append.1 hp with hp | hp
    on_goal 1 => rcases List.mem_append.1 hp with hp | hp
    · rw [List.mem_singleton] at hp
      subst hp
      simp at heq
    · simp at hp
    · exact (patchContainers_not_podWide _).1 p hp (by rw [heq]; simp [beginsWith])
    · exact (patchContainers_not_podWide _).2 p hp (by rw [heq]; simp [beginsWith])

theorem C2_user_set_nonroot_unset_witness :
    sampleReq.Resource = podResource
    ∧ podRunAsNonRoot (podWith none (some 0)) = none
    ∧ podRunAsUser (podWith none (some 0)) = some 0
    ∧ (ApplySecurityDefaults (sampleDecode (podWith none (some 0))) sampleIntn sampleReq).err
        = none
    ∧ (ApplySecurityDefaults (sampleDecode (podWith none (some 0))) sampleIntn sampleReq).patches
        = [{ Op := "add", Path := "/spec/securityContext/runAsNonRoot",
             Value := PatchValue.bool (decide ((0 : Int) ≠ 0)) }]
          ++ patchContainers "containers" (podWith none (some 0)).Spec.Containers
          ++ patchContainers "initContainers" (podWith none (some 0)).Spec.InitContainers
    ∧ podWidePatches
        (ApplySecurityDefaults (sampleDecode (podWith none (some 0))) sampleIntn sampleReq).patches
        = [{ Op := "add", Path := "/spec/securityContext/runAsNonRoot",
             Value := PatchValue.bool (decide ((0 : Int) ≠ 0)) }]
    ∧ ∀ p ∈ (ApplySecurityDefaults (sampleDecode (podWith none (some 0))) sampleIntn
        sampleReq).patches, p.Path ≠ "/spec/securityContext/runAsUser" :=
  ⟨rfl, rfl, rfl,
    C2_user_set_nonroot_unset (sampleDecode (podWith none (some 0))) sampleIntn sampleReq
      (podWith none (some 0)) 0 rfl rfl rfl rfl⟩

/-- C3: on a pod whose `runAsNonRoot` is explicitly true and whose `runAsUser` is
explicitly 0, whatever its containers and init containers are, `ApplySecurityDefaults`
returns the conflict error and no patches. -/
theorem C3_conflict_rejected (decode : List Nat → Except String Pod) (Intn : Int → Int)
    (req : AdmissionRequest) (pod : Pod)
    (hres : req.Resource = podResource) (hdec : decode req.Object.Raw = Except.ok pod)
    (hn : podRunAsNonRoot pod = some true) (hu : podRunAsUser pod = some 0) :
    ApplySecurityDefaults decode Intn req =
      { patches := []
        err := some (Error.conflict
          "runAsNonRoot specified, but runAsUser set to 0 (the root user)") } := by
  rw [apply_set decode Intn req pod true hres hdec hn, hu]
  simp

theorem C3_conflict_rejected_witness :
    sampleReq.Resource = podResource
    ∧ podRunAsNonRoot (podWith (some true) (some 0)) = some true
    ∧ podRunAsUser (podWith (some true) (some 0)) = some 0
    ∧ ApplySecurityDefaults (sampleDecode (podWith (some true) (some 0))) sampleIntn sampleReq =
      { patches := []
        err := some (Error.conflict
          "runAsNonRoot specified, but runAsUser set to 0 (the root user)") } :=
  ⟨rfl, rfl, rfl,
    C3_conflict_rejected (sampleDecode (podWith (some true) (some 0))) sampleIntn sampleReq
      (podWith (some true) (some 0)) rfl rfl rfl rfl⟩

/-- C4: on a decoded pod, `ApplySecurityDefaults` returns an error if and only if
`runAsNonRoot` is explicitly true and `runAsUser` is explicitly 0, and the only error it
returns then is the conflict error; in every other combination, for every container
and init-container list, the error is `nil`. -/
theorem C4_error_only_on_conflict (decode : List Nat → Except String Pod) (Intn : Int → Int)
    (req : AdmissionRequest) (pod : Pod)
    (hres : req.Resource = podResource) (hdec : decode req.Object.Raw = Except.ok pod) :
    ((ApplySecurityDefaults decode Intn req).err ≠ none
      ↔ podRunAsNonRoot pod = some true ∧ podRunAsUser pod = some 0)
    ∧ (¬ (podRunAsNonRoot pod = some true ∧ podRunAsUser pod = some 0)
        → (ApplySecurityDefaults decode Intn req).err = none)
    ∧ ∀ e, (ApplySecurityDefaults decode Intn req).err = some e →
        e = Error.conflict "runAsNonRoot specified, but runAsUser set to 0 (the root user)" := by
  cases hn : podRunAsNonRoot pod with
  | none =>
    rw [apply_unset decode Intn req pod hres hdec hn]
    simp
  | some b =>
    rw [apply_set decode Intn req pod b hres hdec hn]
    by_cases hc : b = true ∧ podRunAsUser pod = some 0
    · rw [if_pos hc]
      obtain ⟨hb, hu⟩ := hc
      subst hb
      simp [hu]
    · rw [if_neg hc]
      simp only [ne_eq, not_true_eq_false, Option.some.injEq, false_iff, not_false_eq_true,
        implies_true, true_and]
      refine ⟨hc, ?_⟩
      intro e he
      cases he

theorem C4_error_only_on_conflict_witness :
    sampleReq.Resource = podResource
    ∧ ((ApplySecurityDefaults (sampleDecode (podWith (some true) (some 5))) sampleIntn
          sampleReq).err ≠ none
      ↔ podRunAsNonRoot (podWith (some true) (some 5)) = some true
        ∧ podRunAsUser (podWith (some true) (some 5)) = some 0)
    ∧ (¬ (podRunAsNonRoot (podWith (some true) (some 5)) = some true
          ∧ podRunAsUser (podWith (some true) (some 5)) = some 0)
        → (ApplySecurityDefaults (sampleDecode (podWith (some true) (some 5))) sampleIntn
            sampleReq).err = none)
    ∧ ∀ e, (ApplySecurityDefaults (sampleDecode (podWith (some true) (some 5))) sampleIntn
          sampleReq).err = some e →
        e = Error.conflict "runAsNonRoot specified, but runAsUser set to 0 (the root user)" :=
  ⟨rfl,
    C4_error_only_on_conflict (sampleDecode (podWith (some true) (some 5))) sampleIntn sampleReq
      (podWith (some true) (some 5)) rfl rfl⟩

/-- C5: on a pod whose `runAsNonRoot` is explicitly false (whatever `runAsUser` is), and
on a pod whose `runAsNonRoot` is explicitly true with `runAsUser` unset or non-zero,
`ApplySecurityDefaults` succeeds, its output is `patchContainers "containers"` of the
containers followed by `patchContainers "initContainers"` of the init containers, and
no patch of it lies under `/spec/securityContext`. -/
theorem C5_explicit_posture_respected (decode : List Nat → Except String Pod)
    (Intn : Int → Int) (req : AdmissionRequest) (pod : Pod)
    (hres : req.Resource = podResource) (hdec : decode req.Object.Raw = Except.ok pod)
    (hn : podRunAsNonRoot pod = some false
      ∨ (podRunAsNonRoot pod = some true ∧ podRunAsUser pod ≠ some 0)) :
    ApplySecurityDefaults decode Intn req =
      { patches := patchContainers "containers" pod.Spec.Containers
          ++ patchContainers "initContainers" pod.Spec.InitContainers
        err := none }
    ∧ ∀ p ∈ (ApplySecurityDefaults decode Intn req).patches,
        ¬ beginsWith p.Path "/spec/securityContext" := by
  have key : ApplySecurityDefaults decode Intn req =
      { patches := patchContainers "containers" pod.Spec.Containers
          ++ patchContainers "initContainers" pod.Spec.InitContainers
        err := none } := by
    rcases hn with hn | ⟨hn, hu⟩
    · rw [apply_set decode Intn req pod false hres hdec hn]
      simp
    · rw [apply_set decode Intn req pod true hres hdec hn]
      simp [hu]
  refine ⟨key, ?_⟩
  rw [key]
  intro p hp
  rcases List.mem_append.1 hp with hp | hp
  · exact (patchContainers_not_podWide _).1 p hp
  · exact (patchContainers_not_podWide _).2 p hp

theorem C5_explicit_posture_respected_witness :
    sampleReq.Resource = podResource
    ∧ (podRunAsNonRoot (podWith (some false) (some 0)) = some false
      ∨ (podRunAsNonRoot (podWith (some false) (some 0)) = some true
        ∧ podRunAsUser (podWith (some false) (some 0)) ≠ some 0))
    ∧ ApplySecurityDefaults (sampleDecode (podWith (some false) (some 0))) sampleIntn sampleReq =
      { patches := patchContainers "containers" (podWith (some false) (some 0)).Spec.Containers
          ++ patchContainers "initContainers" (podWith (some false) (some 0)).Spec.InitContainers
        err := none }
    ∧ ∀ p ∈ (ApplySecurityDefaults (sampleDecode (podWith (some false) (some 0))) sampleIntn
          sampleReq).patches, ¬ beginsWith p.Path "/spec/securityContext" :=
  ⟨rfl, Or.inl rfl,
    C5_explicit_posture_respected (sampleDecode (podWith (some false) (some 0))) sampleIntn
      sampleReq (podWith (some false) (some 0)) rfl rfl (Or.inl rfl)⟩


/-! ## The loop body, by the shape of the container -/

theorem patchContainersBody_none (key : String) (i : Nat) (c : Container)
    (h : c.SecurityContext = none) :
    patchContainersBody key i c [] =
      [{ Op := "add", Path := "/spec/" ++ key ++ "/" ++ fmtD i ++ "/securityContext",
         Value := PatchValue.securityContext defaultContext }] := by
  simp [patchContainersBody, h]

theorem patchContainersBody_some (key : String) (i : Nat) (c : Container)
    (sc : SecurityContext) (h : c.SecurityContext = some sc) :
    patchContainersBody key i c [] =
      (if sc.AllowPrivilegeEscalation = none then
        [{ Op := "add"
           Path := "/spec/" ++ key ++ "/" ++ fmtD i ++ "/securityContext/allowPrivilegeEscalation"
           Value := PatchValue.bool false }] else [])
      ++ (if sc.Capabilities = none then
        [{ Op := "add", Path := "/spec/" ++ key ++ "/" ++ fmtD i ++ "/securityContext/capabilities"
           Value := PatchValue.capabilities { Add := [], Drop := ["ALL"] } }] else [])
      ++ (if sc.SeccompProfile = none then
        [{ Op := "add", Path := "/spec/" ++ key ++ "/" ++ fmtD i ++ "/securityContext/seccompProfile"
           Value := PatchValue.seccompProfile
             { Type_ := "RuntimeDefault", LocalhostProfile := none } }] else []) := by
  simp only [patchContainersBody, h, SeccompProfileTypeRuntimeDefault]
  split_ifs <;> simp

theorem patchContainersBody_paths (key : String) (i : Nat) (c : Container) :
    ∀ p ∈ patchContainersBody key i c [], ∃ suf ∈ pathSuffixes,
      p.Path = "/spec/" ++ key ++ "/" ++ fmtD i ++ suf := by
  cases h : c.SecurityContext with
  | none => simp [patchContainersBody_none key i c h, pathSuffixes]
  | some sc =>
    rw [patchContainersBody_some key i c sc h]
    split_ifs <;> simp [pathSuffixes]

/-- Two paths under the same element are equal only if their ends are. -/
theorem path_end_inj (key : String) (i : Nat) (a b : String)
    (h : "/spec/" ++ key ++ "/" ++ fmtD i ++ a = "/spec/" ++ key ++ "/" ++ fmtD i ++ b) :
    a = b := by
  have := congrArg String.data h
  simp only [String.data_append, List.append_assoc, List.append_cancel_left_eq] at this
  exact String.ext this

/-! ## The claims about `patchContainers` -/

/-- C6: for every key, container list and index `i` whose container has no security
context, the output of `patchContainers` has exactly one patch under the path of that
container: add `/spec/<key>/<i>/securityContext`, whose value is a security context
with capabilities drop = ["ALL"], allowPrivilegeEscalation = false, seccompProfile type
RuntimeDefault and no other field set. This patch follows the patches of the containers
before `i` and precedes those of the containers after `i`. -/
theorem C6_no_context_one_patch (key : String) (cs : List Container) (i : Nat)
    (h : i < cs.length) (hsc : (cs.get ⟨i, h⟩).SecurityContext = none) :
    patchesFor key i (patchContainers key cs) =
      [{ Op := "add", Path := "/spec/" ++ key ++ "/" ++ fmtD i ++ "/securityContext",
         Value := PatchValue.securityContext
           { Capabilities := some { Add := [], Drop := ["ALL"] }
             Privileged := none, SELinuxOptions := none, WindowsOptions := none
             RunAsUser := none, RunAsGroup := none, RunAsNonRoot := none
             ReadOnlyRootFilesystem := none
             AllowPrivilegeEscalation := some false
             ProcMount := none
             SeccompProfile := some { Type_ := "RuntimeDefault", LocalhostProfile := none } } }]
    ∧ patchContainers key cs =
        patchContainers key (cs.take i)
        ++ patchesFor key i (patchContainers key cs)
        ++ patchContainersLoop key (i + 1) (cs.drop (i + 1)) [] := by
  have hb := patchContainersBody_none key i _ hsc
  have hf := patchesFor_patchContainers key cs i h
  refine ⟨by rw [hf, hb]; rfl, ?_⟩
  rw [hf]
  have := patchContainersLoop_split key cs 0 i h
  simpa [patchContainers] using this

theorem C6_no_context_one_patch_witness :
    ∃ h : 0 < sampleContainers.length, (sampleContainers.get ⟨0, h⟩).SecurityContext = none
    ∧ patchesFor "containers" 0 (patchContainers "containers" sampleContainers) =
      [{ Op := "add", Path := "/spec/" ++ "containers" ++ "/" ++ fmtD 0 ++ "/securityContext",
         Value := PatchValue.securityContext
           { Capabilities := some { Add := [], Drop := ["ALL"] }
             Privileged := none, SELinuxOptions := none, WindowsOptions := none
             RunAsUser := none, RunAsGroup := none, RunAsNonRoot := none
             ReadOnlyRootFilesystem := none
             AllowPrivilegeEscalation := some false
             ProcMount := none
             SeccompProfile := some { Type_ := "RuntimeDefault", LocalhostProfile := none } } }] :=
  ⟨by decide, rfl, (C6_no_context_one_patch "containers" sampleContainers 0 (by decide) rfl).1⟩

theorem patchContainers_nil_of_allThreeSet (key : String) : ∀ (cs : List Container) (s : Nat),
    (∀ c ∈ cs, allThreeSet c) → patchContainersLoop key s cs [] = [] := by
  intro cs
  induction cs with
  | nil => intro s _; rfl
  | cons c cs ih =>
    intro s hall
    obtain ⟨sc, hsc, ha, hc, hs⟩ := hall c (by simp)
    rw [patchContainersLoop_cons, ih (s + 1) (fun c hc => hall c (by simp [hc])),
      patchContainersBody_some key s c sc hsc]
    simp [ha, hc, hs]

/-- C7: a container that has a security context in which `allowPrivilegeEscalation`,
`capabilities` and `seccompProfile` are all set, to any values, gets no patch from
`patchContainers`; and a list in which every container is of this kind yields the
empty patch list. -/
theorem C7_all_set_no_patch (key : String) (cs : List Container) (i : Nat)
    (h : i < cs.length) (hset : allThreeSet (cs.get ⟨i, h⟩)) :
    patchesFor key i (patchContainers key cs) = []
    ∧ ((∀ c ∈ cs, allThreeSet c) → patchContainers key cs = []) := by
  obtain ⟨sc, hsc, ha, hc, hs⟩ := hset
  refine ⟨?_, fun hall => patchContainers_nil_of_allThreeSet key cs 0 hall⟩
  rw [patchesFor_patchContainers key cs i h, patchContainersBody_some key i _ sc hsc]
  simp [ha, hc, hs]

theorem sample_allThreeSet : allThreeSet { Name := "agent", SecurityContext := some scAllSet } :=
  ⟨scAllSet, rfl, by decide, by decide, by decide⟩

theorem C7_all_set_no_patch_witness :
    (∃ h : 2 < sampleContainers.length, allThreeSet (sampleContainers.get ⟨2, h⟩))
    ∧ patchesFor "containers" 2 (patchContainers "containers" sampleContainers) = []
    ∧ patchContainers "initContainers"
        [{ Name := "agent", SecurityContext := some scAllSet }] = [] :=
  ⟨⟨by decide, sample_allThreeSet⟩,
    (C7_all_set_no_patch "containers" sampleContainers 2 (by decide) sample_allThreeSet).1,
    (C7_all_set_no_patch "initContainers" [{ Name := "agent", SecurityContext := some scAllSet }]
      0 (by decide) sample_allThreeSet).2 (by
        intro c hc
        rw [List.mem_singleton] at hc
        subst hc
        exact sample_allThreeSet)⟩

/-- C8: for a container at index `i` that has a security context which sets
`allowPrivilegeEscalation` (to true or to false) and leaves `capabilities` and
`seccompProfile` unset, the output of `patchContainers` has exactly two patches under the
path of that container, in this order: add `/spec/<key>/<i>/securityContext/capabilities`
with drop = ["ALL"], then add `/spec/<key>/<i>/securityContext/seccompProfile` with type
RuntimeDefault; none of them is for `allowPrivilegeEscalation`. -/
theorem C8_only_escalation_two_patches (key : String) (cs : List Container) (i : Nat)
    (h : i < cs.length) (sc : SecurityContext) (b : Bool)
    (hsc : (cs.get ⟨i, h⟩).SecurityContext = some sc)
    (ha : sc.AllowPrivilegeEscalation = some b) (hc : sc.Capabilities = none)
    (hs : sc.SeccompProfile = none) :
    patchesFor key i (patchContainers key cs) =
      [{ Op := "add", Path := "/spec/" ++ key ++ "/" ++ fmtD i ++ "/securityContext/capabilities",
         Value := PatchValue.capabilities { Add := [], Drop := ["ALL"] } },
       { Op := "add", Path := "/spec/" ++ key ++ "/" ++ fmtD i ++ "/securityContext/seccompProfile",
         Value := PatchValue.seccompProfile
           { Type_ := "RuntimeDefault", LocalhostProfile := none } }] := by
  rw [patchesFor_patchContainers key cs i h, patchContainersBody_some key i _ sc hsc]
  simp [ha, hc, hs]

theorem C8_only_escalation_two_patches_witness :
    ∃ h : 1 < sampleContainers.length,
      (sampleContainers.get ⟨1, h⟩).SecurityContext = some scOnlyEscalation
    ∧ scOnlyEscalation.AllowPrivilegeEscalation = some true
    ∧ scOnlyEscalation.Capabilities = none ∧ scOnlyEscalation.SeccompProfile = none
    ∧ patchesFor "containers" 1 (patchContainers "containers" sampleContainers) =
      [{ Op := "add"
         Path := "/spec/" ++ "containers" ++ "/" ++ fmtD 1 ++ "/securityContext/capabilities",
         Value := PatchValue.capabilities { Add := [], Drop := ["ALL"] } },
       { Op := "add"
         Path := "/spec/" ++ "containers" ++ "/" ++ fmtD 1 ++ "/securityContext/seccompProfile",
         Value := PatchValue.seccompProfile
           { Type_ := "RuntimeDefault", LocalhostProfile := none } }] :=
  ⟨by decide, rfl, rfl, rfl, rfl,
    C8_only_escalation_two_patches "containers" sampleContainers 1 (by decide) scOnlyEscalation
      true rfl rfl rfl rfl⟩


/-- C9: for a container at index `i`, a patch with the capabilities path of that container
is in the output of `patchContainers` exactly when the container has a security context
whose capabilities object is absent; so a container whose capabilities object is present
gets no capabilities patch, whatever the object holds, also when its drop list is empty
or lacks "ALL". When the patch is emitted it is add, with drop = ["ALL"]. -/
theorem C9_capabilities_patch_iff_absent (key : String) (cs : List Container) (i : Nat)
    (h : i < cs.length) :
    ((∃ p ∈ patchContainers key cs,
        p.Path = "/spec/" ++ key ++ "/" ++ fmtD i ++ "/securityContext/capabilities")
      ↔ ∃ sc, (cs.get ⟨i, h⟩).SecurityContext = some sc ∧ sc.Capabilities = none)
    ∧ (∀ sc caps, (cs.get ⟨i, h⟩).SecurityContext = some sc → sc.Capabilities = some caps →
        ∀ p ∈ patchContainers key cs,
          p.Path ≠ "/spec/" ++ key ++ "/" ++ fmtD i ++ "/securityContext/capabilities")
    ∧ (∀ p ∈ patchContainers key cs,
        p.Path = "/spec/" ++ key ++ "/" ++ fmtD i ++ "/securityContext/capabilities" →
        p = { Op := "add"
              Path := "/spec/" ++ key ++ "/" ++ fmtD i ++ "/securityContext/capabilities"
              Value := PatchValue.capabilities { Add := [], Drop := ["ALL"] } }) := by
  have hmem : ∀ p ∈ patchContainers key cs,
      p.Path = "/spec/" ++ key ++ "/" ++ fmtD i ++ "/securityContext/capabilities" →
      p ∈ patchContainersBody key i (cs.get ⟨i, h⟩) [] := by
    intro p hp hpath
    rw [← patchesFor_patchContainers key cs i h]
    unfold patchesFor
    rw [List.mem_filter]
    refine ⟨hp, ?_⟩
    simp [beginsWith, hpath, containerPath_data, String.data_append, fmtD_data]
  have hbody : ∀ p ∈ patchContainersBody key i (cs.get ⟨i, h⟩) [],
      p.Path = "/spec/" ++ key ++ "/" ++ fmtD i ++ "/securityContext/capabilities" →
      (∃ sc, (cs.get ⟨i, h⟩).SecurityContext = some sc ∧ sc.Capabilities = none)
      ∧ p = { Op := "add"
              Path := "/spec/" ++ key ++ "/" ++ fmtD i ++ "/securityContext/capabilities"
              Value := PatchValue.capabilities { Add := [], Drop := ["ALL"] } } := by
    intro p hp hpath
    cases hsc : (cs.get ⟨i, h⟩).SecurityContext with
    | none =>
      rw [patchContainersBody_none key i _ hsc, List.mem_singleton] at hp
      subst hp
      exact absurd (path_end_inj key i _ _ hpath) (by decide)
    | some sc =>
      rw [patchContainersBody_some key i _ sc hsc] at hp
      rcases List.mem_append.1 hp with hp | hp
      on_goal 1 => rcases List.mem_append.1 hp with hp | hp
      · split_ifs at hp
        · rw [List.mem_singleton] at hp
          subst hp
          exact absurd (path_end_inj key i _ _ hpath) (by decide)
        · simp at hp
      · split_ifs at hp with hcap
        · rw [List.mem_singleton] at hp
          exact ⟨⟨sc, rfl, hcap⟩, hp⟩
        · simp at hp
      · split_ifs at hp
        · rw [List.mem_singleton] at hp
          subst hp
          exact absurd (path_end_inj key i _ _ hpath) (by decide)
        · simp at hp
  refine ⟨⟨?_, ?_⟩, ?_, ?_⟩
  · rintro ⟨p, hp, hpath⟩
    exact (hbody p (hmem p hp hpath) hpath).1
  · rintro ⟨sc, hsc, hcap⟩
    refine ⟨{ Op := "add"
              Path := "/spec/" ++ key ++ "/" ++ fmtD i ++ "/securityContext/capabilities"
              Value := PatchValue.capabilities { Add := [], Drop := ["ALL"] } }, ?_, rfl⟩
    have hin : ({ Op := "add"
                  Path := "/spec/" ++ key ++ "/" ++ fmtD i ++ "/securityContext/capabilities"
                  Value := PatchValue.capabilities { Add := [], Drop := ["ALL"] } }
                : patchOperation) ∈ patchContainersBody key i (cs.get ⟨i, h⟩) [] := by
      rw [patchContainersBody_some key i _ sc hsc]
      simp [hcap]
    rw [← patchesFor_patchContainers key cs i h] at hin
    exact (List.mem_filter.1 hin).1
  · intro sc caps hsc hcap p hp hpath
    obtain ⟨sc2, hsc2, hcap2⟩ := (hbody p (hmem p hp hpath) hpath).1
    rw [hsc] at hsc2
    cases hsc2
    rw [hcap] at hcap2
    cases hcap2
  · intro p hp hpath
    exact (hbody p (hmem p hp hpath) hpath).2

theorem C9_capabilities_patch_iff_absent_witness :
    ∃ h : 2 < sampleContainers.length,
      (sampleContainers.get ⟨2, h⟩).SecurityContext = some scAllSet
      ∧ scAllSet.Capabilities = some { Add := ["NET_ADMIN"], Drop := [] }
      ∧ ∀ p ∈ patchContainers "containers" sampleContainers,
          p.Path ≠ "/spec/" ++ "containers" ++ "/" ++ fmtD 2 ++ "/securityContext/capabilities" :=
  ⟨by decide, rfl, rfl,
    (C9_capabilities_patch_iff_absent "containers" sampleContainers 2 (by decide)).2.1
      scAllSet { Add := ["NET_ADMIN"], Drop := [] } rfl rfl⟩


/-! ## Positions -/

theorem patchContainers_indexedPaths (key : String) (cs : List Container) :
    indexedPaths key cs (patchContainers key cs) := by
  intro p hp
  obtain ⟨k, hk, hmem⟩ := patchContainersLoop_mem key cs 0 p hp
  rw [Nat.zero_add] at hmem
  exact ⟨k, hk, patchContainersBody_paths key k _ p hmem⟩

theorem indexOrdered_append (key : String) (xs ys : List patchOperation)
    (hx : indexOrdered key xs) (hy : indexOrdered key ys)
    (hxy : ∀ p ∈ xs, ∀ q ∈ ys, ∀ i j : Nat, beginsWith p.Path (containerPath key i) →
      beginsWith q.Path (containerPath key j) → i ≤ j) :
    indexOrdered key (xs ++ ys) :=
  List.pairwise_append.2 ⟨hx, hy, hxy⟩

/-- A list with no patch under the collection `key` is ordered for that collection. -/
theorem indexOrdered_of_foreign (key : String) (xs : List patchOperation)
    (hx : ∀ p ∈ xs, ∀ i : Nat, ¬ beginsWith p.Path (containerPath key i)) :
    indexOrdered key xs := by
  unfold indexOrdered
  induction xs with
  | nil => exact List.Pairwise.nil
  | cons x xs ih =>
    refine List.Pairwise.cons ?_ (ih (fun p hp => hx p (by simp [hp])))
    intro q _ i j hi _
    exact absurd hi (hx x (by simp) i)

theorem patchContainersLoop_indexOrdered (key : String) : ∀ (cs : List Container) (s : Nat),
    indexOrdered key (patchContainersLoop key s cs []) := by
  intro cs
  induction cs with
  | nil => intro s; exact List.Pairwise.nil
  | cons c cs ih =>
    intro s
    rw [patchContainersLoop_cons]
    refine indexOrdered_append key _ _ ?_ (ih (s + 1)) ?_
    · unfold indexOrdered
      rw [List.pairwise_iff_forall_sublist]
      intro p q _ i j hi hj
      have hp : p ∈ patchContainersBody key s c [] := by
        rename_i hsub
        exact hsub.subset (by simp)
      have hq : q ∈ patchContainersBody key s c [] := by
        rename_i hsub
        exact hsub.subset (by simp)
      have e1 := containerPath_unique key p.Path _ _ hi (patchContainersBody_begins key s c p hp)
      have e2 := containerPath_unique key q.Path _ _ hj (patchContainersBody_begins key s c q hq)
      omega
    · intro p hp q hq i j hi hj
      obtain ⟨k, hk, hmem⟩ := patchContainersLoop_mem key cs (s + 1) q hq
      have e1 := containerPath_unique key p.Path _ _ hi (patchContainersBody_begins key s c p hp)
      have e2 := containerPath_unique key q.Path _ _ hj
        (patchContainersBody_begins key _ _ q hmem)
      omega

theorem patchesFor_foreign (key : String) (i : Nat) (xs : List patchOperation)
    (hx : ∀ p ∈ xs, ¬ beginsWith p.Path (containerPath key i)) : patchesFor key i xs = [] := by
  unfold patchesFor
  rw [List.filter_eq_nil_iff]
  intro p hp
  simpa using hx p hp

/-- The patches of one collection do not lie under the elements of the other. -/
theorem patchContainers_foreign (cs : List Container) (i : Nat) :
    (∀ p ∈ patchContainers "initContainers" cs,
      ¬ beginsWith p.Path (containerPath "containers" i))
    ∧ (∀ p ∈ patchContainers "containers" cs,
      ¬ beginsWith p.Path (containerPath "initContainers" i)) := by
  constructor
  · intro p hp hb
    obtain ⟨k, hk, hmem⟩ := patchContainersLoop_mem _ cs 0 p hp
    exact (collections_apart p.Path i).2.2 (0 + k) hb (patchContainersBody_begins _ _ _ p hmem)
  · intro p hp hb
    obtain ⟨k, hk, hmem⟩ := patchContainersLoop_mem _ cs 0 p hp
    exact (collections_apart p.Path (0 + k)).2.2 i (patchContainersBody_begins _ _ _ p hmem) hb

/-- Patches under the pod-level security context lie under no element of the two
collections. -/
theorem podWide_foreign (xs : List patchOperation)
    (hx : ∀ p ∈ xs, beginsWith p.Path "/spec/securityContext") (i : Nat) :
    (∀ p ∈ xs, ¬ beginsWith p.Path (containerPath "containers" i))
    ∧ (∀ p ∈ xs, ¬ beginsWith p.Path (containerPath "initContainers" i)) :=
  ⟨fun p hp hb => (collections_apart p.Path i).1 hb (hx p hp),
   fun p hp hb => (collections_apart p.Path i).2.1 hb (hx p hp)⟩

/-- On success the output is a list of patches under the pod-level security context,
then the patches of the containers, then those of the init containers. -/
theorem apply_ok_shape (decode : List Nat → Except String Pod) (Intn : Int → Int)
    (req : AdmissionRequest) (pod : Pod) (hres : req.Resource = podResource)
    (hdec : decode req.Object.Raw = Except.ok pod)
    (hok : (ApplySecurityDefaults decode Intn req).err = none) :
    ∃ xs : List patchOperation, (∀ p ∈ xs, beginsWith p.Path "/spec/securityContext")
      ∧ (ApplySecurityDefaults decode Intn req).patches
          = xs ++ patchContainers "containers" pod.Spec.Containers
            ++ patchContainers "initContainers" pod.Spec.InitContainers := by
  cases hn : podRunAsNonRoot pod with
  | none =>
    rw [apply_unset decode Intn req pod hres hdec hn]
    refine ⟨_, ?_, rfl⟩
    cases podRunAsUser pod <;> simp [beginsWith]
  | some b =>
    rw [apply_set decode Intn req pod b hres hdec hn] at hok ⊢
    by_cases hc : b = true ∧ podRunAsUser pod = some 0
    · rw [if_pos hc] at hok
      simp at hok
    · rw [if_neg hc]
      exact ⟨[], by simp, by simp⟩

theorem podWidePatches_shape (xs ys zs : List patchOperation)
    (hx : ∀ p ∈ xs, beginsWith p.Path "/spec/securityContext")
    (hy : ∀ p ∈ ys, ¬ beginsWith p.Path "/spec/securityContext")
    (hz : ∀ p ∈ zs, ¬ beginsWith p.Path "/spec/securityContext") :
    podWidePatches (xs ++ ys ++ zs) = xs := by
  rw [podWidePatches_append, podWidePatches_append]
  have h1 : podWidePatches xs = xs := by
    unfold podWidePatches
    rw [List.filter_eq_self]
    intro p hp
    simpa using hx p hp
  have h2 : podWidePatches ys = [] := by
    unfold podWidePatches
    rw [List.filter_eq_nil_iff]
    intro p hp
    simpa using hy p hp
  have h3 : podWidePatches zs = [] := by
    unfold podWidePatches
    rw [List.filter_eq_nil_iff]
    intro p hp
    simpa using hz p hp
  rw [h1, h2, h3]
  simp

/-- C10: on a pod with N containers and M init containers on which
`ApplySecurityDefaults` succeeds, the output is its patches under the pod-level security
context, then the container patches, then the init-container patches; every container
patch has a path `/spec/containers/<i>/securityContext[/<field>]` with `i < N` and every
init-container patch a path `/spec/initContainers/<j>/securityContext[/<field>]` with
`j < M`; the patches of the output under index `i` of a collection are exactly those
that the loop body yields for the `i`-th element of the input list, and there are none
under an index beyond the list; and for each collection the patches appear in
non-decreasing index order. -/
theorem C10_positional_correctness (decode : List Nat → Except String Pod) (Intn : Int → Int)
    (req : AdmissionRequest) (pod : Pod) (hres : req.Resource = podResource)
    (hdec : decode req.Object.Raw = Except.ok pod)
    (hok : (ApplySecurityDefaults decode Intn req).err = none) :
    (ApplySecurityDefaults decode Intn req).patches
      = podWidePatches (ApplySecurityDefaults decode Intn req).patches
        ++ patchContainers "containers" pod.Spec.Containers
        ++ patchContainers "initContainers" pod.Spec.InitContainers
    ∧ indexedPaths "containers" pod.Spec.Containers
        (patchContainers "containers" pod.Spec.Containers)
    ∧ indexedPaths "initContainers" pod.Spec.InitContainers
        (patchContainers "initContainers" pod.Spec.InitContainers)
    ∧ (∀ (i : Nat) (h : i < pod.Spec.Containers.length),
        patchesFor "containers" i (ApplySecurityDefaults decode Intn req).patches
          = patchContainersBody "containers" i (pod.Spec.Containers.get ⟨i, h⟩) [])
    ∧ (∀ (j : Nat) (h : j < pod.Spec.InitContainers.length),
        patchesFor "initContainers" j (ApplySecurityDefaults decode Intn req).patches
          = patchContainersBody "initContainers" j (pod.Spec.InitContainers.get ⟨j, h⟩) [])
    ∧ (∀ i : Nat, pod.Spec.Containers.length ≤ i →
        patchesFor "containers" i (ApplySecurityDefaults decode Intn req).patches = [])
    ∧ (∀ j : Nat, pod.Spec.InitContainers.length ≤ j →
        patchesFor "initContainers" j (ApplySecurityDefaults decode Intn req).patches = [])
    ∧ indexOrdered "containers" (ApplySecurityDefaults decode Intn req).patches
    ∧ indexOrdered "initContainers" (ApplySecurityDefaults decode Intn req).patches := by
  obtain ⟨xs, hxs, hshape⟩ := apply_ok_shape decode Intn req pod hres hdec hok
  have hpc := patchContainers_not_podWide pod.Spec.Containers
  have hpi := patchContainers_not_podWide pod.Spec.InitContainers
  have hfc : ∀ i, patchesFor "containers" i (ApplySecurityDefaults decode Intn req).patches
      = patchesFor "containers" i (patchContainers "containers" pod.Spec.Containers) := by
    intro i
    rw [hshape, patchesFor_append, patchesFor_append,
      patchesFor_foreign _ i xs (podWide_foreign xs hxs i).1,
      patchesFor_foreign _ i _ (patchContainers_foreign pod.Spec.InitContainers i).1]
    simp
  have hfi : ∀ j, patchesFor "initContainers" j (ApplySecurityDefaults decode Intn req).patches
      = patchesFor "initContainers" j
          (patchContainers "initContainers" pod.Spec.InitContainers) := by
    intro j
    rw [hshape, patchesFor_append, patchesFor_append,
      patchesFor_foreign _ j xs (podWide_foreign xs hxs j).2,
      patchesFor_foreign _ j _ (patchContainers_foreign pod.Spec.Containers j).2]
    simp
  refine ⟨?_, patchContainers_indexedPaths _ _, patchContainers_indexedPaths _ _,
    ?_, ?_, ?_, ?_, ?_, ?_⟩
  · rw [hshape, podWidePatches_shape xs _ _ hxs hpc.1 hpi.2]
  · intro i h
    rw [hfc i, patchesFor_patchContainers _ _ i h]
  · intro j h
    rw [hfi j, patchesFor_patchContainers _ _ j h]
  · intro i h
    rw [hfc i, patchesFor_patchContainers_none _ _ i h]
  · intro j h
    rw [hfi j, patchesFor_patchContainers_none _ _ j h]
  · rw [hshape]
    refine indexOrdered_append _ _ _ (indexOrdered_append _ _ _ ?_ ?_ ?_) ?_ ?_
    · exact indexOrdered_of_foreign _ xs (fun p hp i => (podWide_foreign xs hxs i).1 p hp)
    · exact patchContainersLoop_indexOrdered _ _ 0
    · intro p hp q _ i j hi _
      exact absurd hi ((podWide_foreign xs hxs i).1 p hp)
    · exact indexOrdered_of_foreign _ _
        (fun p hp i => (patchContainers_foreign pod.Spec.InitContainers i).1 p hp)
    · intro p _ q hq i j _ hj
      exact absurd hj ((patchContainers_foreign pod.Spec.InitContainers j).1 q hq)
  · rw [hshape]
    refine indexOrdered_append _ _ _ (indexOrdered_append _ _ _ ?_ ?_ ?_) ?_ ?_
    · exact indexOrdered_of_foreign _ xs (fun p hp i => (podWide_foreign xs hxs i).2 p hp)
    · exact indexOrdered_of_foreign _ _
        (fun p hp i => (patchContainers_foreign pod.Spec.Containers i).2 p hp)
    · intro p hp q _ i j hi _
      exact absurd hi ((podWide_foreign xs hxs i).2 p hp)
    · exact patchContainersLoop_indexOrdered _ _ 0
    · intro p hp q _ i j hi _
      rcases List.mem_append.1 hp with hp | hp
      · exact absurd hi ((podWide_foreign xs hxs i).2 p hp)
      · exact absurd hi ((patchContainers_foreign pod.Spec.Containers i).2 p hp)


theorem C10_positional_correctness_witness :
    sampleReq.Resource = podResource
    ∧ (ApplySecurityDefaults (sampleDecode podBare) sampleIntn sampleReq).err = none
    ∧ (∀ (i : Nat) (h : i < podBare.Spec.Containers.length),
        patchesFor "containers" i
            (ApplySecurityDefaults (sampleDecode podBare) sampleIntn sampleReq).patches
          = patchContainersBody "containers" i (podBare.Spec.Containers.get ⟨i, h⟩) [])
    ∧ indexOrdered "initContainers"
        (ApplySecurityDefaults (sampleDecode podBare) sampleIntn sampleReq).patches :=
  ⟨rfl, rfl,
    (C10_positional_correctness (sampleDecode podBare) sampleIntn sampleReq podBare
      rfl rfl rfl).2.2.2.1,
    (C10_positional_correctness (sampleDecode podBare) sampleIntn sampleReq podBare
      rfl rfl rfl).2.2.2.2.2.2.2.2⟩

/-! ## The order of the output -/

theorem beginsWith_trans (p q r : String) (h1 : beginsWith p q) (h2 : beginsWith q r) :
    beginsWith p r :=
  List.IsPrefix.trans h2 h1

theorem containerPath_begins_collection (key : String) (i : Nat) :
    beginsWith (containerPath key i) ("/spec/" ++ key ++ "/") := by
  simp [beginsWith, containerPath_data, String.data_append]

theorem sectionRank_containers (cs : List Container) :
    ∀ p ∈ patchContainers "containers" cs, sectionRank p.Path = 1 := by
  intro p hp
  obtain ⟨k, hk, hmem⟩ := patchContainersLoop_mem _ cs 0 p hp
  have hb := patchContainersBody_begins _ _ _ p hmem
  have h1 : ¬ beginsWith p.Path "/spec/securityContext" := (collections_apart p.Path _).1 hb
  have h2 : beginsWith p.Path "/spec/containers/" :=
    beginsWith_trans _ _ _ hb (containerPath_begins_collection "containers" _)
  simp [sectionRank, h1, h2]

theorem sectionRank_initContainers (cs : List Container) :
    ∀ p ∈ patchContainers "initContainers" cs, sectionRank p.Path = 2 := by
  intro p hp
  obtain ⟨k, hk, hmem⟩ := patchContainersLoop_mem _ cs 0 p hp
  have hb := patchContainersBody_begins _ _ _ p hmem
  have h1 : ¬ beginsWith p.Path "/spec/securityContext" := (collections_apart p.Path _).2.1 hb
  have h2 : ¬ beginsWith p.Path "/spec/containers/" := by
    intro h
    have h3 := beginsWith_trans _ _ _ hb (containerPath_begins_collection "initContainers" _)
    unfold beginsWith at h h3
    rcases List.prefix_or_prefix_of_prefix h h3 with h | h <;> simp at h
  simp [sectionRank, h1, h2]

/-- The patches under the pod-level security context, by the case of the input. -/
theorem apply_ok_podWide (decode : List Nat → Except String Pod) (Intn : Int → Int)
    (req : AdmissionRequest) (pod : Pod) (hres : req.Resource = podResource)
    (hdec : decode req.Object.Raw = Except.ok pod)
    (hok : (ApplySecurityDefaults decode Intn req).err = none) :
    (ApplySecurityDefaults decode Intn req).patches
      = (match podRunAsNonRoot pod, podRunAsUser pod with
         | some _, _ => []
         | none, some u =>
           [{ Op := "add", Path := "/spec/securityContext/runAsNonRoot",
              Value := PatchValue.bool (decide (u ≠ 0)) }]
         | none, none =>
           [{ Op := "add", Path := "/spec/securityContext/runAsNonRoot",
              Value := PatchValue.bool true },
            { Op := "add", Path := "/spec/securityContext/runAsUser",
              Value := PatchValue.int (random Intn) }])
        ++ patchContainers "containers" pod.Spec.Containers
        ++ patchContainers "initContainers" pod.Spec.InitContainers := by
  cases hn : podRunAsNonRoot pod with
  | none =>
    rw [apply_unset decode Intn req pod hres hdec hn]
    cases podRunAsUser pod <;> simp
  | some b =>
    rw [apply_set decode Intn req pod b hres hdec hn] at hok ⊢
    by_cases hc : b = true ∧ podRunAsUser pod = some 0
    · rw [if_pos hc] at hok
      simp at hok
    · rw [if_neg hc]
      simp

/-- C11: on a pod on which `ApplySecurityDefaults` succeeds, the output is the patches
under the pod-level security context (none when `runAsNonRoot` is set; the
`runAsNonRoot` patch alone when only `runAsUser` is set; the `runAsNonRoot` patch and
then the `runAsUser` patch when both are unset), then `patchContainers "containers"` of
the containers, then `patchContainers "initContainers"` of the init containers; along
the output the part a patch belongs to never goes back: no container patch precedes a
pod-wide patch and no init-container patch precedes a container patch. -/
theorem C11_output_order (decode : List Nat → Except String Pod) (Intn : Int → Int)
    (req : AdmissionRequest) (pod : Pod) (hres : req.Resource = podResource)
    (hdec : decode req.Object.Raw = Except.ok pod)
    (hok : (ApplySecurityDefaults decode Intn req).err = none) :
    (ApplySecurityDefaults decode Intn req).patches
      = podWidePatches (ApplySecurityDefaults decode Intn req).patches
        ++ patchContainers "containers" pod.Spec.Containers
        ++ patchContainers "initContainers" pod.Spec.InitContainers
    ∧ podWidePatches (ApplySecurityDefaults decode Intn req).patches
      = (match podRunAsNonRoot pod, podRunAsUser pod with
         | some _, _ => []
         | none, some u =>
           [{ Op := "add", Path := "/spec/securityContext/runAsNonRoot",
              Value := PatchValue.bool (decide (u ≠ 0)) }]
         | none, none =>
           [{ Op := "add", Path := "/spec/securityContext/runAsNonRoot",
              Value := PatchValue.bool true },
            { Op := "add", Path := "/spec/securityContext/runAsUser",
              Value := PatchValue.int (random Intn) }])
    ∧ (∀ p ∈ patchContainers "containers" pod.Spec.Containers, sectionRank p.Path = 1)
    ∧ (∀ p ∈ patchContainers "initContainers" pod.Spec.InitContainers, sectionRank p.Path = 2)
    ∧ (ApplySecurityDefaults decode Intn req).patches.Pairwise
        (fun p q => sectionRank p.Path ≤ sectionRank q.Path) := by
  have hshape := apply_ok_podWide decode Intn req pod hres hdec hok
  have hpc := patchContainers_not_podWide pod.Spec.Containers
  have hpi := patchContainers_not_podWide pod.Spec.InitContainers
  have hrc := sectionRank_containers pod.Spec.Containers
  have hri := sectionRank_initContainers pod.Spec.InitContainers
  have hxs : ∀ p ∈ (match podRunAsNonRoot pod, podRunAsUser pod with
         | some _, _ => []
         | none, some u =>
           [{ Op := "add", Path := "/spec/securityContext/runAsNonRoot",
              Value := PatchValue.bool (decide (u ≠ 0)) }]
         | none, none =>
           [{ Op := "add", Path := "/spec/securityContext/runAsNonRoot",
              Value := PatchValue.bool true },
            { Op := "add", Path := "/spec/securityContext/runAsUser",
              Value := PatchValue.int (random Intn) }] : List patchOperation),
      beginsWith p.Path "/spec/securityContext" := by
    cases podRunAsNonRoot pod <;> cases podRunAsUser pod <;> simp [beginsWith]
  have hpw := podWidePatches_shape _ _ _ hxs hpc.1 hpi.2
  rw [← hshape] at hpw
  refine ⟨?_, hpw, hrc, hri, ?_⟩
  · rw [hpw]
    exact hshape
  · rw [hshape]
    have hx0 : ∀ p ∈ (match podRunAsNonRoot pod, podRunAsUser pod with
         | some _, _ => []
         | none, some u =>
           [{ Op := "add", Path := "/spec/securityContext/runAsNonRoot",
              Value := PatchValue.bool (decide (u ≠ 0)) }]
         | none, none =>
           [{ Op := "add", Path := "/spec/securityContext/runAsNonRoot",
              Value := PatchValue.bool true },
            { Op := "add", Path := "/spec/securityContext/runAsUser",
              Value := PatchValue.int (random Intn) }] : List patchOperation),
        sectionRank p.Path = 0 := by
      intro p hp
      simp [sectionRank, hxs p hp]
    rw [List.pairwise_append, List.pairwise_append]
    refine ⟨⟨?_, ?_, ?_⟩, ?_, ?_⟩
    · rw [List.pairwise_iff_forall_sublist]
      intro p q hsub
      rw [hx0 p (hsub.subset (by simp))]
      exact Nat.zero_le _
    · rw [List.pairwise_iff_forall_sublist]
      intro p q hsub
      rw [hrc p (hsub.subset (by simp)), hrc q (hsub.subset (by simp))]
    · intro p hp q _
      rw [hx0 p hp]
      exact Nat.zero_le _
    · rw [List.pairwise_iff_forall_sublist]
      intro p q hsub
      rw [hri p (hsub.subset (by simp)), hri q (hsub.subset (by simp))]
    · intro p hp q hq
      rw [hri q hq]
      rcases List.mem_append.1 hp with hp | hp
      · rw [hx0 p hp]
        exact Nat.zero_le _
      · rw [hrc p hp]
        exact Nat.le_succ _

theorem C11_output_order_witness :
    sampleReq.Resource = podResource
    ∧ (ApplySecurityDefaults (sampleDecode podBare) sampleIntn sampleReq).err = none
    ∧ (ApplySecurityDefaults (sampleDecode podBare) sampleIntn sampleReq).patches
      = podWidePatches (ApplySecurityDefaults (sampleDecode podBare) sampleIntn sampleReq).patches
        ++ patchContainers "containers" podBare.Spec.Containers
        ++ patchContainers "initContainers" podBare.Spec.InitContainers
    ∧ (ApplySecurityDefaults (sampleDecode podBare) sampleIntn sampleReq).patches.Pairwise
        (fun p q => sectionRank p.Path ≤ sectionRank q.Path) :=
  ⟨rfl, rfl,
    (C11_output_order (sampleDecode podBare) sampleIntn sampleReq podBare rfl rfl rfl).1,
    (C11_output_order (sampleDecode podBare) sampleIntn sampleReq podBare rfl rfl rfl).2.2.2.2⟩

/-! ## The doc comment of `ApplySecurityDefaults` -/

/-- The value that the code gives to the `runAsNonRoot` patch (line 65): on a pod whose
`runAsNonRoot` is not set, the first patch of the output is
add `/spec/securityContext/runAsNonRoot` with the value true, unless `runAsUser` is
explicitly 0, in which case the value is false; it is the only patch of the output with
that path. -/
theorem runAsNonRoot_patch_value (decode : List Nat → Except String Pod) (Intn : Int → Int)
    (req : AdmissionRequest) (pod : Pod) (hres : req.Resource = podResource)
    (hdec : decode req.Object.Raw = Except.ok pod) (hn : podRunAsNonRoot pod = none) :
    (ApplySecurityDefaults decode Intn req).err = none
    ∧ (ApplySecurityDefaults decode Intn req).patches.head?
        = some { Op := "add", Path := "/spec/securityContext/runAsNonRoot",
                 Value := PatchValue.bool (decide (podRunAsUser pod ≠ some 0)) }
    ∧ ∀ p ∈ (ApplySecurityDefaults decode Intn req).patches,
        p.Path = "/spec/securityContext/runAsNonRoot" →
        p.Value = PatchValue.bool (decide (podRunAsUser pod ≠ some 0)) := by
  rw [apply_unset decode Intn req pod hres hdec hn]
  have hv : (match podRunAsUser pod with
             | none => true
             | some u => decide (u ≠ 0)) = decide (podRunAsUser pod ≠ some 0) := by
    cases podRunAsUser pod <;> simp
  rw [hv]
  refine ⟨rfl, by simp, ?_⟩
  intro p hp hpath
  rcases List.mem_append.1 hp with hp | hp
  on_goal 1 => rcases List.mem_append.1 hp with hp | hp
  on_goal 1 => rcases List.mem_append.1 hp with hp | hp
  · rw [List.mem_singleton] at hp
    rw [hp]
  · cases hu : podRunAsUser pod with
    | none =>
      rw [hu] at hp
      rw [List.mem_singleton] at hp
      rw [hp] at hpath
      simp at hpath
    | some u =>
      rw [hu] at hp
      simp at hp
  · exact absurd (by rw [hpath]; simp [beginsWith]) ((patchContainers_not_podWide _).1 p hp)
  · exact absurd (by rw [hpath]; simp [beginsWith]) ((patchContainers_not_podWide _).2 p hp)

/-- C15: the doc comment of `ApplySecurityDefaults` says that a `runAsNonRoot` that is
not set "is set to a default value of `false`". The code does not do that: on a pod
without pod-level security context, whose `runAsNonRoot` is therefore not set, the
emitted patch add `/spec/securityContext/runAsNonRoot` has the value true, so it is not
the case that every patch of the output with that path has the value false. -/
theorem C15_code_emits_true :
    podRunAsNonRoot podBare = none
    ∧ { Op := "add", Path := "/spec/securityContext/runAsNonRoot",
        Value := PatchValue.bool true }
        ∈ (ApplySecurityDefaults (sampleDecode podBare) sampleIntn sampleReq).patches
    ∧ ¬ ∀ p ∈ (ApplySecurityDefaults (sampleDecode podBare) sampleIntn sampleReq).patches,
        p.Path = "/spec/securityContext/runAsNonRoot" → p.Value = PatchValue.bool false := by
  have h := apply_unset (sampleDecode podBare) sampleIntn sampleReq podBare rfl rfl rfl
  have hu : podRunAsUser podBare = none := rfl
  rw [hu] at h
  have hmem :
      ({ Op := "add", Path := "/spec/securityContext/runAsNonRoot",
         Value := PatchValue.bool true } : patchOperation)
        ∈ (ApplySecurityDefaults (sampleDecode podBare) sampleIntn sampleReq).patches := by
    rw [h]
    simp
  refine ⟨rfl, hmem, ?_⟩
  intro hall
  have := hall _ hmem rfl
  simp at this

/-- The value that the code gives to the `runAsUser` patch (lines 18 to 22 and 72): on a
pod whose `runAsUser` and `runAsNonRoot` are both not set, there is exactly one patch
with the path `/spec/securityContext/runAsUser`, second in the output; it is an add
whose value is the result of `random`, that is `rand.Intn(999999) + 1000000000`, a value
between 1000000000 and 1000999998 and so never 1234. -/
theorem runAsUser_patch_value (decode : List Nat → Except String Pod) (Intn : Int → Int)
    (req : AdmissionRequest) (pod : Pod) (hrand : IntnSpec Intn)
    (hres : req.Resource = podResource)
    (hdec : decode req.Object.Raw = Except.ok pod)
    (hn : podRunAsNonRoot pod = none) (hu : podRunAsUser pod = none) :
    (ApplySecurityDefaults decode Intn req).err = none
    ∧ (ApplySecurityDefaults decode Intn req).patches.filter
        (fun p => decide (p.Path = "/spec/securityContext/runAsUser"))
        = [{ Op := "add", Path := "/spec/securityContext/runAsUser",
             Value := PatchValue.int (Intn 999999 + 1000000000) }]
    ∧ (ApplySecurityDefaults decode Intn req).patches.get? 1
        = some { Op := "add", Path := "/spec/securityContext/runAsUser",
                 Value := PatchValue.int (Intn 999999 + 1000000000) }
    ∧ 1000000000 ≤ Intn 999999 + 1000000000 ∧ Intn 999999 + 1000000000 ≤ 1000999998
    ∧ Intn 999999 + 1000000000 ≠ 1234 := by
  rw [apply_unset decode Intn req pod hres hdec hn, hu]
  have hr : random Intn = Intn 999999 + 1000000000 := rfl
  have hrange := random_range Intn hrand
  rw [hr] at hrange ⊢
  refine ⟨rfl, ?_, by simp, hrange.1, hrange.2, by omega⟩
  simp only [List.filter_append]
  have h1 : (patchContainers "containers" pod.Spec.Containers).filter
      (fun p => decide (p.Path = "/spec/securityContext/runAsUser")) = [] := by
    rw [List.filter_eq_nil_iff]
    intro p hp hpath
    simp only [decide_eq_true_eq] at hpath
    exact (patchContainers_not_podWide _).1 p hp (by rw [hpath]; simp [beginsWith])
  have h2 : (patchContainers "initContainers" pod.Spec.InitContainers).filter
      (fun p => decide (p.Path = "/spec/securityContext/runAsUser")) = [] := by
    rw [List.filter_eq_nil_iff]
    intro p hp hpath
    simp only [decide_eq_true_eq] at hpath
    exact (patchContainers_not_podWide _).2 p hp (by rw [hpath]; simp [beginsWith])
  rw [h1, h2]
  simp

/-- C16: the doc comment of `ApplySecurityDefaults` says that a `runAsUser` that is not
set, on a pod whose `runAsNonRoot` was not set, is defaulted "to a value of 1234". The
code does not do that: on a pod without pod-level security context, with the random
source that yields its largest value, the emitted patch
add `/spec/securityContext/runAsUser` has the value 1000999998, so it is not the case
that every patch of the output with that path has the value 1234. -/
theorem C16_code_emits_random_uid :
    podRunAsNonRoot podBare = none ∧ podRunAsUser podBare = none
    ∧ { Op := "add", Path := "/spec/securityContext/runAsUser",
        Value := PatchValue.int 1000999998 }
        ∈ (ApplySecurityDefaults (sampleDecode podBare) sampleIntn sampleReq).patches
    ∧ ¬ ∀ p ∈ (ApplySecurityDefaults (sampleDecode podBare) sampleIntn sampleReq).patches,
        p.Path = "/spec/securityContext/runAsUser" → p.Value = PatchValue.int 1234 := by
  have h := apply_unset (sampleDecode podBare) sampleIntn sampleReq podBare rfl rfl rfl
  have hu : podRunAsUser podBare = none := rfl
  rw [hu] at h
  have hr : random sampleIntn = 1000999998 := by decide
  rw [hr] at h
  have hmem :
      ({ Op := "add", Path := "/spec/securityContext/runAsUser",
         Value := PatchValue.int 1000999998 } : patchOperation)
        ∈ (ApplySecurityDefaults (sampleDecode podBare) sampleIntn sampleReq).patches := by
    rw [h]
    simp
  refine ⟨rfl, rfl, hmem, ?_⟩
  intro hall
  have := hall _ hmem rfl
  simp at this

/-! ## Requests that are not for a decoded pod -/

theorem apply_other_resource (decode : List Nat → Except String Pod) (Intn : Int → Int)
    (req : AdmissionRequest) (h : req.Resource ≠ podResource) :
    ApplySecurityDefaults decode Intn req = { patches := [], err := none } := by
  simp [ApplySecurityDefaults, h]

theorem apply_decode_error (decode : List Nat → Except String Pod) (Intn : Int → Int)
    (req : AdmissionRequest) (msg : String) (hres : req.Resource = podResource)
    (hdec : decode req.Object.Raw = Except.error msg) :
    ApplySecurityDefaults decode Intn req =
      { patches := []
        err := some (Error.deserialize ("could not deserialize pod object: " ++ msg)) } := by
  simp [ApplySecurityDefaults, hres, hdec]

/-- C18: for every admission request whose resource is not the v1 pods resource,
`ApplySecurityDefaults` returns no patches and no error, whatever the decoder would do
with the object of the request: the resource check comes before decoding, so this holds
also for an object that cannot be deserialized and for a pod with a conflicting
posture. -/
theorem C18_other_resource_passes (decode : List Nat → Except String Pod) (Intn : Int → Int)
    (req : AdmissionRequest) (h : req.Resource ≠ podResource) :
    ApplySecurityDefaults decode Intn req = { patches := [], err := none } :=
  apply_other_resource decode Intn req h

theorem C18_other_resource_passes_witness :
    deploymentReq.Resource ≠ podResource
    ∧ failingDecode deploymentReq.Object.Raw = Except.error "not a pod"
    ∧ ApplySecurityDefaults failingDecode sampleIntn deploymentReq
        = { patches := [], err := none }
    ∧ ApplySecurityDefaults (sampleDecode (podWith (some true) (some 0))) sampleIntn
        deploymentReq = { patches := [], err := none } :=
  ⟨by decide, rfl,
    C18_other_resource_passes failingDecode sampleIntn deploymentReq (by decide),
    C18_other_resource_passes (sampleDecode (podWith (some true) (some 0))) sampleIntn
      deploymentReq (by decide)⟩

/-! ## Two random draws -/

theorem sameButUserValue_refl (l : List patchOperation) :
    List.Forall₂ sameButUserValue l l :=
  List.forall₂_same.2 (fun _ _ => ⟨rfl, rfl, fun _ => rfl⟩)

/-- C17: the evaluator is deterministic except for the synthetic user id. For every
request, decoder and two random sources, the two runs of `ApplySecurityDefaults` return
the same error, the same number of patches and, position by position, patches with the
same op and path and, except for the patch at `/spec/securityContext/runAsUser`, the same
value; and when the request is not for pods, or the object does not decode, or the
decoded pod sets `runAsNonRoot` or `runAsUser`, the two results are equal. -/
theorem C17_deterministic_except_uid (decode : List Nat → Except String Pod)
    (Intn1 Intn2 : Int → Int) (req : AdmissionRequest) :
    (ApplySecurityDefaults decode Intn1 req).err = (ApplySecurityDefaults decode Intn2 req).err
    ∧ (ApplySecurityDefaults decode Intn1 req).patches.length
        = (ApplySecurityDefaults decode Intn2 req).patches.length
    ∧ List.Forall₂ sameButUserValue (ApplySecurityDefaults decode Intn1 req).patches
        (ApplySecurityDefaults decode Intn2 req).patches
    ∧ (req.Resource ≠ podResource →
        ApplySecurityDefaults decode Intn1 req = ApplySecurityDefaults decode Intn2 req)
    ∧ (∀ msg, decode req.Object.Raw = Except.error msg →
        ApplySecurityDefaults decode Intn1 req = ApplySecurityDefaults decode Intn2 req)
    ∧ (∀ pod, decode req.Object.Raw = Except.ok pod →
        podRunAsNonRoot pod ≠ none ∨ podRunAsUser pod ≠ none →
        ApplySecurityDefaults decode Intn1 req = ApplySecurityDefaults decode Intn2 req) := by
  have hsame : ApplySecurityDefaults decode Intn1 req = ApplySecurityDefaults decode Intn2 req →
      (ApplySecurityDefaults decode Intn1 req).err = (ApplySecurityDefaults decode Intn2 req).err
      ∧ (ApplySecurityDefaults decode Intn1 req).patches.length
          = (ApplySecurityDefaults decode Intn2 req).patches.length
      ∧ List.Forall₂ sameButUserValue (ApplySecurityDefaults decode Intn1 req).patches
          (ApplySecurityDefaults decode Intn2 req).patches := by
    intro h
    rw [h]
    exact ⟨rfl, rfl, sameButUserValue_refl _⟩
  by_cases hres : req.Resource = podResource
  · cases hdec : decode req.Object.Raw with
    | error msg =>
      have e : ApplySecurityDefaults decode Intn1 req = ApplySecurityDefaults decode Intn2 req := by
        rw [apply_decode_error decode Intn1 req msg hres hdec,
          apply_decode_error decode Intn2 req msg hres hdec]
      obtain ⟨h1, h2, h3⟩ := hsame e
      exact ⟨h1, h2, h3, fun _ => e, fun _ _ => e, fun _ _ _ => e⟩
    | ok pod =>
      cases hn : podRunAsNonRoot pod with
      | some b =>
        have e : ApplySecurityDefaults decode Intn1 req
            = ApplySecurityDefaults decode Intn2 req := by
          rw [apply_set decode Intn1 req pod b hres hdec hn,
            apply_set decode Intn2 req pod b hres hdec hn]
        obtain ⟨h1, h2, h3⟩ := hsame e
        exact ⟨h1, h2, h3, fun _ => e, fun _ _ => e, fun _ _ _ => e⟩
      | none =>
        cases hu : podRunAsUser pod with
        | some u =>
          have e : ApplySecurityDefaults decode Intn1 req
              = ApplySecurityDefaults decode Intn2 req := by
            rw [apply_unset decode Intn1 req pod hres hdec hn,
              apply_unset decode Intn2 req pod hres hdec hn, hu]
          obtain ⟨h1, h2, h3⟩ := hsame e
          exact ⟨h1, h2, h3, fun _ => e, fun _ _ => e, fun _ _ _ => e⟩
        | none =>
          rw [apply_unset decode Intn1 req pod hres hdec hn,
            apply_unset decode Intn2 req pod hres hdec hn, hu]
          refine ⟨rfl, by simp, ?_, fun h => absurd hres h, ?_, ?_⟩
          · simp only [List.append_assoc]
            refine List.rel_append (List.Forall₂.cons ⟨rfl, rfl, fun _ => rfl⟩ List.Forall₂.nil)
              (List.rel_append (List.Forall₂.cons ⟨rfl, rfl, fun h => absurd rfl h⟩
                List.Forall₂.nil) (sameButUserValue_refl _))
          · intro msg hmsg
            cases hmsg
          · intro pod2 hpod2 hset
            cases hpod2
            rcases hset with h | h
            · exact absurd hn h
            · exact absurd hu h
  · have e : ApplySecurityDefaults decode Intn1 req = ApplySecurityDefaults decode Intn2 req := by
      rw [apply_other_resource decode Intn1 req hres, apply_other_resource decode Intn2 req hres]
    obtain ⟨h1, h2, h3⟩ := hsame e
    exact ⟨h1, h2, h3, fun _ => e, fun _ _ => e, fun _ _ _ => e⟩

theorem C17_deterministic_except_uid_witness :
    sampleDecode (podWith none (some 7)) sampleReq.Object.Raw
        = Except.ok (podWith none (some 7))
    ∧ (podRunAsNonRoot (podWith none (some 7)) ≠ none
        ∨ podRunAsUser (podWith none (some 7)) ≠ none)
    ∧ ApplySecurityDefaults (sampleDecode (podWith none (some 7))) sampleIntn sampleReq
        = ApplySecurityDefaults (sampleDecode (podWith none (some 7))) zeroIntn sampleReq :=
  ⟨rfl, Or.inr (by decide),
    (C17_deterministic_except_uid (sampleDecode (podWith none (some 7))) sampleIntn zeroIntn
      sampleReq).2.2.2.2.2 (podWith none (some 7)) rfl (Or.inr (by decide))⟩

/-! ## The two collections -/

theorem sameButCollection_mk (k1 k2 : String) (i : Nat) (suf : String) (v : PatchValue)
    (hs : suf ∈ pathSuffixes) :
    sameButCollection k1 k2
      { Op := "add", Path := "/spec/" ++ k1 ++ "/" ++ fmtD i ++ suf, Value := v }
      { Op := "add", Path := "/spec/" ++ k2 ++ "/" ++ fmtD i ++ suf, Value := v } :=
  ⟨rfl, rfl, i, suf, hs, rfl, rfl⟩

theorem patchContainersBody_sameButCollection (k1 k2 : String) (i : Nat) (c : Container) :
    List.Forall₂ (sameButCollection k1 k2) (patchContainersBody k1 i c [])
      (patchContainersBody k2 i c []) := by
  cases h : c.SecurityContext with
  | none =>
    rw [patchContainersBody_none k1 i c h, patchContainersBody_none k2 i c h]
    exact List.Forall₂.cons (sameButCollection_mk k1 k2 i _ _ (by simp [pathSuffixes]))
      List.Forall₂.nil
  | some sc =>
    rw [patchContainersBody_some k1 i c sc h, patchContainersBody_some k2 i c sc h]
    refine List.rel_append (List.rel_append ?_ ?_) ?_
    · split_ifs
      · exact List.Forall₂.cons (sameButCollection_mk k1 k2 i _ _ (by simp [pathSuffixes]))
          List.Forall₂.nil
      · exact List.Forall₂.nil
    · split_ifs
      · exact List.Forall₂.cons (sameButCollection_mk k1 k2 i _ _ (by simp [pathSuffixes]))
          List.Forall₂.nil
      · exact List.Forall₂.nil
    · split_ifs
      · exact List.Forall₂.cons (sameButCollection_mk k1 k2 i _ _ (by simp [pathSuffixes]))
          List.Forall₂.nil
      · exact List.Forall₂.nil

theorem patchContainersLoop_sameButCollection (k1 k2 : String) :
    ∀ (cs : List Container) (s : Nat),
      List.Forall₂ (sameButCollection k1 k2) (patchContainersLoop k1 s cs [])
        (patchContainersLoop k2 s cs []) := by
  intro cs
  induction cs with
  | nil => intro s; exact List.Forall₂.nil
  | cons c cs ih =>
    intro s
    rw [patchContainersLoop_cons, patchContainersLoop_cons]
    exact List.rel_append (patchContainersBody_sameButCollection k1 k2 s c) (ih (s + 1))

/-- C19: containers and init containers are defaulted identically. For every container
list, `patchContainers "containers"` and `patchContainers "initContainers"` return lists
of the same length and, position by position, patches with the same op and the same
value, whose paths are `/spec/containers/<i><end>` and `/spec/initContainers/<i><end>`
with the same index and the same end. -/
theorem C19_collections_defaulted_alike (cs : List Container) :
    (patchContainers "containers" cs).length = (patchContainers "initContainers" cs).length
    ∧ List.Forall₂ (sameButCollection "containers" "initContainers")
        (patchContainers "containers" cs) (patchContainers "initContainers" cs) := by
  have h := patchContainersLoop_sameButCollection "containers" "initContainers" cs 0
  exact ⟨h.length_eq, h⟩

/-! ## Fields and patches -/

theorem path_eq_iff (key : String) (i : Nat) (a b : String) :
    "/spec/" ++ key ++ "/" ++ fmtD i ++ a = "/spec/" ++ key ++ "/" ++ fmtD i ++ b ↔ a = b :=
  ⟨path_end_inj key i a b, fun h => by rw [h]⟩

theorem path_begins_iff (key : String) (i : Nat) (a b : String) :
    beginsWith ("/spec/" ++ key ++ "/" ++ fmtD i ++ a) ("/spec/" ++ key ++ "/" ++ fmtD i ++ b)
      ↔ beginsWith a b := by
  simp only [beginsWith, String.data_append, List.append_assoc, List.prefix_append_right_inj]

theorem setsContainerField_begins (key : String) (i : Nat) (f : ContainerField)
    (p : patchOperation) (h : setsContainerField key i f p) :
    beginsWith p.Path (containerPath key i) := by
  rcases h with h | ⟨h, _⟩
  · rw [h]
    cases f <;>
      simp [beginsWith, containerPath_data, String.data_append, fmtD_data,
        ContainerField.pathEnd]
  · rw [h]
    simp [beginsWith, containerPath_data, String.data_append, fmtD_data]

/-- The loop body emits a patch that sets a field exactly when the field is absent. -/
theorem patchContainersBody_sets_iff (key : String) (i : Nat) (c : Container)
    (f : ContainerField) :
    (∃ p ∈ patchContainersBody key i c [], setsContainerField key i f p) ↔ f.absentIn c := by
  cases h : c.SecurityContext with
  | none =>
    rw [patchContainersBody_none key i c h]
    simp only [ContainerField.absentIn, h, iff_true]
    refine ⟨_, List.mem_singleton.2 rfl, Or.inr ⟨rfl, defaultContext, rfl, ?_⟩⟩
    cases f <;> simp [ContainerField.setIn, defaultContext]
  | some sc =>
    rw [patchContainersBody_some key i c sc h]
    simp only [ContainerField.absentIn, h]
    constructor
    · rintro ⟨p, hp, hset⟩
      rcases List.mem_append.1 hp with hp | hp
      on_goal 1 => rcases List.mem_append.1 hp with hp | hp
      all_goals
        split_ifs at hp with hnone
        · rw [List.mem_singleton] at hp
          subst hp
          rcases hset with hset | ⟨hset, _⟩
          · cases f <;> simp [ContainerField.pathEnd, path_eq_iff] at hset
            simp [ContainerField.setIn, hnone]
          · simp [path_eq_iff] at hset
        · simp at hp
    · intro habs
      cases f
      · refine ⟨{ Op := "add"
                  Path := "/spec/" ++ key ++ "/" ++ fmtD i
                    ++ "/securityContext/allowPrivilegeEscalation"
                  Value := PatchValue.bool false }, ?_, Or.inl rfl⟩
        have : sc.AllowPrivilegeEscalation = none := by
          simpa [ContainerField.setIn] using habs
        simp [this]
      · refine ⟨{ Op := "add"
                  Path := "/spec/" ++ key ++ "/" ++ fmtD i ++ "/securityContext/capabilities"
                  Value := PatchValue.capabilities { Add := [], Drop := ["ALL"] } },
          ?_, Or.inl rfl⟩
        have : sc.Capabilities = none := by
          simpa [ContainerField.setIn] using habs
        simp [this]
      · refine ⟨{ Op := "add"
                  Path := "/spec/" ++ key ++ "/" ++ fmtD i ++ "/securityContext/seccompProfile"
                  Value := PatchValue.seccompProfile
                    { Type_ := "RuntimeDefault", LocalhostProfile := none } },
          ?_, Or.inl rfl⟩
        have : sc.SeccompProfile = none := by
          simpa [ContainerField.setIn] using habs
        simp [this]

/-- On success the patches of the output under an element of one of the two collections
are the ones that the loop body emits for that element. -/
theorem apply_ok_patchesFor (decode : List Nat → Except String Pod) (Intn : Int → Int)
    (req : AdmissionRequest) (pod : Pod) (hres : req.Resource = podResource)
    (hdec : decode req.Object.Raw = Except.ok pod)
    (hok : (ApplySecurityDefaults decode Intn req).err = none) :
    (∀ (i : Nat) (h : i < pod.Spec.Containers.length),
        patchesFor "containers" i (ApplySecurityDefaults decode Intn req).patches
          = patchContainersBody "containers" i (pod.Spec.Containers.get ⟨i, h⟩) [])
    ∧ (∀ (j : Nat) (h : j < pod.Spec.InitContainers.length),
        patchesFor "initContainers" j (ApplySecurityDefaults decode Intn req).patches
          = patchContainersBody "initContainers" j (pod.Spec.InitContainers.get ⟨j, h⟩) []) := by
  obtain ⟨xs, hxs, hshape⟩ := apply_ok_shape decode Intn req pod hres hdec hok
  constructor
  · intro i h
    rw [hshape, patchesFor_append, patchesFor_append,
      patchesFor_foreign _ i xs (podWide_foreign xs hxs i).1,
      patchesFor_foreign _ i _ (patchContainers_foreign pod.Spec.InitContainers i).1,
      patchesFor_patchContainers _ _ i h]
    simp
  · intro j h
    rw [hshape, patchesFor_append, patchesFor_append,
      patchesFor_foreign _ j xs (podWide_foreign xs hxs j).2,
      patchesFor_foreign _ j _ (patchContainers_foreign pod.Spec.Containers j).2,
      patchesFor_patchContainers _ _ j h]
    simp

theorem exists_sets_iff_patchesFor (key : String) (i : Nat) (f : ContainerField)
    (out : List patchOperation) :
    (∃ p ∈ out, setsContainerField key i f p)
      ↔ ∃ p ∈ patchesFor key i out, setsContainerField key i f p := by
  constructor
  · rintro ⟨p, hp, hset⟩
    refine ⟨p, ?_, hset⟩
    unfold patchesFor
    rw [List.mem_filter]
    exact ⟨hp, by simpa using setsContainerField_begins key i f p hset⟩
  · rintro ⟨p, hp, hset⟩
    exact ⟨p, (List.mem_filter.1 hp).1, hset⟩

/-- C14, as amended: on a pod on which `ApplySecurityDefaults` succeeds, the output
contains a patch for pod-level `runAsNonRoot` if and only if that field is absent in the
input; a patch for pod-level `runAsUser` if and only if `runAsUser` and `runAsNonRoot`
are both absent; and, for each container and init container and each of
`allowPrivilegeEscalation`, `capabilities` and `seccompProfile`, a patch that sets the
field if and only if the field is absent. So no patch addresses a field that the input
sets. -/
theorem C14_patch_iff_absent (decode : List Nat → Except String Pod) (Intn : Int → Int)
    (req : AdmissionRequest) (pod : Pod) (hres : req.Resource = podResource)
    (hdec : decode req.Object.Raw = Except.ok pod)
    (hok : (ApplySecurityDefaults decode Intn req).err = none) :
    ((∃ p ∈ (ApplySecurityDefaults decode Intn req).patches,
        p.Path = "/spec/securityContext/runAsNonRoot") ↔ podRunAsNonRoot pod = none)
    ∧ ((∃ p ∈ (ApplySecurityDefaults decode Intn req).patches,
        p.Path = "/spec/securityContext/runAsUser")
        ↔ podRunAsUser pod = none ∧ podRunAsNonRoot pod = none)
    ∧ (∀ (i : Nat) (h : i < pod.Spec.Containers.length) (f : ContainerField),
        (∃ p ∈ (ApplySecurityDefaults decode Intn req).patches,
          setsContainerField "containers" i f p)
        ↔ f.absentIn (pod.Spec.Containers.get ⟨i, h⟩))
    ∧ (∀ (j : Nat) (h : j < pod.Spec.InitContainers.length) (f : ContainerField),
        (∃ p ∈ (ApplySecurityDefaults decode Intn req).patches,
          setsContainerField "initContainers" j f p)
        ↔ f.absentIn (pod.Spec.InitContainers.get ⟨j, h⟩)) := by
  have hfor := apply_ok_patchesFor decode Intn req pod hres hdec hok
  have hshape := apply_ok_podWide decode Intn req pod hres hdec hok
  have hpc := patchContainers_not_podWide pod.Spec.Containers
  have hpi := patchContainers_not_podWide pod.Spec.InitContainers
  have hpod : ∀ path : String, beginsWith path "/spec/securityContext" →
      ((∃ p ∈ (ApplySecurityDefaults decode Intn req).patches, p.Path = path)
        ↔ ∃ p ∈ (match podRunAsNonRoot pod, podRunAsUser pod with
           | some _, _ => []
           | none, some u =>
             [{ Op := "add", Path := "/spec/securityContext/runAsNonRoot",
                Value := PatchValue.bool (decide (u ≠ 0)) }]
           | none, none =>
             [{ Op := "add", Path := "/spec/securityContext/runAsNonRoot",
                Value := PatchValue.bool true },
              { Op := "add", Path := "/spec/securityContext/runAsUser",
                Value := PatchValue.int (random Intn) }] : List patchOperation),
            p.Path = path) := by
    intro path hpath
    rw [hshape]
    constructor
    · rintro ⟨p, hp, he⟩
      rcases List.mem_append.1 hp with hp | hp
      on_goal 1 => rcases List.mem_append.1 hp with hp | hp
      · exact ⟨p, hp, he⟩
      · exact absurd (by rw [he]; exact hpath) (hpc.1 p hp)
      · exact absurd (by rw [he]; exact hpath) (hpi.2 p hp)
    · rintro ⟨p, hp, he⟩
      exact ⟨p, List.mem_append_left _ (List.mem_append_left _ hp), he⟩
  refine ⟨?_, ?_, ?_, ?_⟩
  · rw [hpod _ (by simp [beginsWith])]
    cases podRunAsNonRoot pod <;> cases podRunAsUser pod <;> simp
  · rw [hpod _ (by simp [beginsWith])]
    cases podRunAsNonRoot pod <;> cases podRunAsUser pod <;> simp
  · intro i h f
    rw [exists_sets_iff_patchesFor, hfor.1 i h]
    exact patchContainersBody_sets_iff _ i _ f
  · intro j h f
    rw [exists_sets_iff_patchesFor, hfor.2 j h]
    exact patchContainersBody_sets_iff _ j _ f

theorem C14_patch_iff_absent_witness :
    sampleReq.Resource = podResource
    ∧ (ApplySecurityDefaults (sampleDecode (podWith (some false) none)) sampleIntn
        sampleReq).err = none
    ∧ ((∃ p ∈ (ApplySecurityDefaults (sampleDecode (podWith (some false) none)) sampleIntn
          sampleReq).patches, p.Path = "/spec/securityContext/runAsUser")
        ↔ podRunAsUser (podWith (some false) none) = none
          ∧ podRunAsNonRoot (podWith (some false) none) = none) :=
  ⟨rfl, rfl,
    (C14_patch_iff_absent (sampleDecode (podWith (some false) none)) sampleIntn sampleReq
      (podWith (some false) none) rfl rfl rfl).2.1⟩

/-- Against C14 as stated: on a pod that sets `runAsNonRoot` to false and leaves
`runAsUser` unset, `ApplySecurityDefaults` succeeds, the field `runAsUser` is absent in
the input, and the output contains no patch for it. -/
theorem C14_runAsUser_counterexample :
    (ApplySecurityDefaults (sampleDecode (podWith (some false) none)) sampleIntn
        sampleReq).err = none
    ∧ podRunAsUser (podWith (some false) none) = none
    ∧ ¬ ((∃ p ∈ (ApplySecurityDefaults (sampleDecode (podWith (some false) none)) sampleIntn
          sampleReq).patches, p.Path = "/spec/securityContext/runAsUser")
        ↔ podRunAsUser (podWith (some false) none) = none) := by
  refine ⟨rfl, rfl, ?_⟩
  intro hiff
  obtain ⟨p, hp, hpath⟩ := hiff.2 rfl
  have h := apply_set (sampleDecode (podWith (some false) none)) sampleIntn sampleReq
    (podWith (some false) none) false rfl rfl rfl
  rw [if_neg (by simp)] at h
  rw [h] at hp
  rcases List.mem_append.1 hp with hp | hp
  · exact (patchContainers_not_podWide _).1 p hp (by rw [hpath]; simp [beginsWith])
  · exact (patchContainers_not_podWide _).2 p hp (by rw [hpath]; simp [beginsWith])

/-! ## Distinct paths -/

/-- Paths that lie in two regions with no common path are apart. -/
theorem pathsApart_of_regions (p q : patchOperation) (a b : String)
    (hp : beginsWith p.Path a) (hq : beginsWith q.Path b)
    (hab : ∀ r : String, beginsWith r a → beginsWith r b → False) : pathsApart p q :=
  ⟨fun h => hab q.Path (beginsWith_trans _ _ _ h hp) hq,
   fun h => hab p.Path hp (beginsWith_trans _ _ _ h hq)⟩

theorem patchContainersBody_pathsApart (key : String) (i : Nat) (c : Container) :
    (patchContainersBody key i c []).Pairwise pathsApart := by
  cases h : c.SecurityContext with
  | none =>
    rw [patchContainersBody_none key i c h]
    exact List.pairwise_singleton _ _
  | some sc =>
    rw [patchContainersBody_some key i c sc h]
    split_ifs <;> simp [pathsApart, path_begins_iff, beginsWith]

theorem patchContainersLoop_pathsApart (key : String) : ∀ (cs : List Container) (s : Nat),
    (patchContainersLoop key s cs []).Pairwise pathsApart := by
  intro cs
  induction cs with
  | nil => intro s; exact List.Pairwise.nil
  | cons c cs ih =>
    intro s
    rw [patchContainersLoop_cons, List.pairwise_append]
    refine ⟨patchContainersBody_pathsApart key s c, ih (s + 1), ?_⟩
    intro p hp q hq
    obtain ⟨k, hk, hmem⟩ := patchContainersLoop_mem key cs (s + 1) q hq
    refine pathsApart_of_regions p q _ _ (patchContainersBody_begins key s c p hp)
      (patchContainersBody_begins key _ _ q hmem) ?_
    intro r h1 h2
    have := containerPath_unique key r _ _ h1 h2
    omega

/-- A container gets the one patch of the whole security context, or patches of single
fields below it, never both. -/
theorem patchContainersBody_whole_or_fields (key : String) (i : Nat) (c : Container) :
    patchContainersBody key i c [] =
        [{ Op := "add", Path := "/spec/" ++ key ++ "/" ++ fmtD i ++ "/securityContext",
           Value := PatchValue.securityContext defaultContext }]
    ∨ ∀ p ∈ patchContainersBody key i c [],
        beginsWith p.Path ("/spec/" ++ key ++ "/" ++ fmtD i ++ "/securityContext/") := by
  cases h : c.SecurityContext with
  | none => exact Or.inl (patchContainersBody_none key i c h)
  | some sc =>
    right
    rw [patchContainersBody_some key i c sc h]
    split_ifs <;> simp [path_begins_iff, beginsWith]

/-- C20: on a pod on which `ApplySecurityDefaults` succeeds, no two patches of the output
have the same path, and no path of the output is an initial segment of the path of
another patch; for every container and init container, the patches of the output under
its path are either the single patch of its whole security context or patches of fields
under `/securityContext/`, never both. -/
theorem C20_paths_distinct (decode : List Nat → Except String Pod) (Intn : Int → Int)
    (req : AdmissionRequest) (pod : Pod) (hres : req.Resource = podResource)
    (hdec : decode req.Object.Raw = Except.ok pod)
    (hok : (ApplySecurityDefaults decode Intn req).err = none) :
    ((ApplySecurityDefaults decode Intn req).patches.map (fun p => p.Path)).Nodup
    ∧ (ApplySecurityDefaults decode Intn req).patches.Pairwise pathsApart
    ∧ (∀ (i : Nat) (_ : i < pod.Spec.Containers.length),
        patchesFor "containers" i (ApplySecurityDefaults decode Intn req).patches
          = [{ Op := "add", Path := "/spec/" ++ "containers" ++ "/" ++ fmtD i ++ "/securityContext",
               Value := PatchValue.securityContext defaultContext }]
        ∨ ∀ p ∈ patchesFor "containers" i (ApplySecurityDefaults decode Intn req).patches,
            beginsWith p.Path ("/spec/" ++ "containers" ++ "/" ++ fmtD i ++ "/securityContext/"))
    ∧ (∀ (j : Nat) (_ : j < pod.Spec.InitContainers.length),
        patchesFor "initContainers" j (ApplySecurityDefaults decode Intn req).patches
          = [{ Op := "add"
               Path := "/spec/" ++ "initContainers" ++ "/" ++ fmtD j ++ "/securityContext",
               Value := PatchValue.securityContext defaultContext }]
        ∨ ∀ p ∈ patchesFor "initContainers" j (ApplySecurityDefaults decode Intn req).patches,
            beginsWith p.Path
              ("/spec/" ++ "initContainers" ++ "/" ++ fmtD j ++ "/securityContext/")) := by
  have hfor := apply_ok_patchesFor decode Intn req pod hres hdec hok
  have hshape := apply_ok_podWide decode Intn req pod hres hdec hok
  have hapart : (ApplySecurityDefaults decode Intn req).patches.Pairwise pathsApart := by
    rw [hshape, List.pairwise_append, List.pairwise_append]
    have hxs : ∀ p ∈ (match podRunAsNonRoot pod, podRunAsUser pod with
           | some _, _ => []
           | none, some u =>
             [{ Op := "add", Path := "/spec/securityContext/runAsNonRoot",
                Value := PatchValue.bool (decide (u ≠ 0)) }]
           | none, none =>
             [{ Op := "add", Path := "/spec/securityContext/runAsNonRoot",
                Value := PatchValue.bool true },
              { Op := "add", Path := "/spec/securityContext/runAsUser",
                Value := PatchValue.int (random Intn) }] : List patchOperation),
        beginsWith p.Path "/spec/securityContext" := by
      cases podRunAsNonRoot pod <;> cases podRunAsUser pod <;> simp [beginsWith]
    refine ⟨⟨?_, patchContainersLoop_pathsApart _ _ 0, ?_⟩,
      patchContainersLoop_pathsApart _ _ 0, ?_⟩
    · cases podRunAsNonRoot pod <;> cases podRunAsUser pod <;> simp [pathsApart, beginsWith]
    · intro p hp q hq
      obtain ⟨k, hk, hmem⟩ := patchContainersLoop_mem _ _ 0 q hq
      exact pathsApart_of_regions p q _ _ (hxs p hp) (patchContainersBody_begins _ _ _ q hmem)
        (fun r h1 h2 => (collections_apart r _).1 h2 h1)
    · intro p hp q hq
      obtain ⟨k, hk, hmem⟩ := patchContainersLoop_mem _ _ 0 q hq
      have hq2 := patchContainersBody_begins _ _ _ q hmem
      rcases List.mem_append.1 hp with hp | hp
      · exact pathsApart_of_regions p q _ _ (hxs p hp) hq2
          (fun r h1 h2 => (collections_apart r _).2.1 h2 h1)
      · obtain ⟨k2, hk2, hmem2⟩ := patchContainersLoop_mem _ _ 0 p hp
        exact pathsApart_of_regions p q _ _ (patchContainersBody_begins _ _ _ p hmem2) hq2
          (fun r h1 h2 => (collections_apart r _).2.2 _ h1 h2)
  refine ⟨?_, hapart, ?_, ?_⟩
  · rw [List.Nodup, List.pairwise_map]
    refine hapart.imp ?_
    intro p q h heq
    exact h.1 (by rw [heq]; exact List.prefix_refl _)
  · intro i h
    rw [hfor.1 i h]
    exact patchContainersBody_whole_or_fields _ i _
  · intro j h
    rw [hfor.2 j h]
    exact patchContainersBody_whole_or_fields _ j _

theorem C20_paths_distinct_witness :
    sampleReq.Resource = podResource
    ∧ (ApplySecurityDefaults (sampleDecode podBare) sampleIntn sampleReq).err = none
    ∧ ((ApplySecurityDefaults (sampleDecode podBare) sampleIntn sampleReq).patches.map
        (fun p => p.Path)).Nodup
    ∧ (ApplySecurityDefaults (sampleDecode podBare) sampleIntn sampleReq).patches.Pairwise
        pathsApart :=
  ⟨rfl, rfl,
    (C20_paths_distinct (sampleDecode podBare) sampleIntn sampleReq podBare rfl rfl rfl).1,
    (C20_paths_distinct (sampleDecode podBare) sampleIntn sampleReq podBare rfl rfl rfl).2.1⟩

/-! ## Applying the patches -/

theorem patchEffects_securityContext (ps : List patchOperation) : ∀ pod : Pod,
    (patchEffects pod ps).Spec.SecurityContext
      = ps.foldl applyToPodContext pod.Spec.SecurityContext := by
  induction ps with
  | nil => intro pod; rfl
  | cons p ps ih =>
    intro pod
    simp only [patchEffects, List.foldl_cons] at ih ⊢
    rw [ih (patchEffect pod p)]
    rfl

theorem patchedContainers_nil (key : String) : ∀ (cs : List Container) (s : Nat),
    patchedContainers key [] s cs = cs := by
  intro cs
  induction cs with
  | nil => intro s; rfl
  | cons c cs ih => intro s; simp [patchedContainers, ih]

theorem patchedContainers_cons (key : String) (p : patchOperation) (ps : List patchOperation) :
    ∀ (cs : List Container) (s : Nat),
    patchedContainers key (p :: ps) s cs
      = patchedContainers key ps s (applyToContainers key p s cs) := by
  intro cs
  induction cs with
  | nil => intro s; rfl
  | cons c cs ih => intro s; simp [patchedContainers, applyToContainers, ih]

theorem foldl_applyToContainers (key : String) (s : Nat) (ps : List patchOperation) :
    ∀ cs : List Container,
    ps.foldl (fun cs p => applyToContainers key p s cs) cs = patchedContainers key ps s cs := by
  induction ps with
  | nil => intro cs; simp [patchedContainers_nil]
  | cons p ps ih =>
    intro cs
    rw [List.foldl_cons, ih, patchedContainers_cons]

theorem patchEffects_containers (ps : List patchOperation) : ∀ pod : Pod,
    (patchEffects pod ps).Spec.Containers
        = patchedContainers "containers" ps 0 pod.Spec.Containers
    ∧ (patchEffects pod ps).Spec.InitContainers
        = patchedContainers "initContainers" ps 0 pod.Spec.InitContainers := by
  induction ps with
  | nil => intro pod; simp [patchEffects, patchedContainers_nil]
  | cons p ps ih =>
    intro pod
    simp only [patchEffects, List.foldl_cons] at ih ⊢
    rw [(ih (patchEffect pod p)).1, (ih (patchEffect pod p)).2, patchedContainers_cons,
      patchedContainers_cons]
    exact ⟨rfl, rfl⟩

theorem mem_patchedContainers (key : String) (ps : List patchOperation) :
    ∀ (cs : List Container) (s : Nat) (c : Container), c ∈ patchedContainers key ps s cs →
    ∃ (k : Nat) (h : k < cs.length),
      c = ps.foldl (applyToContainer key (s + k)) (cs.get ⟨k, h⟩) := by
  intro cs
  induction cs with
  | nil => intro s c hc; simp [patchedContainers] at hc
  | cons c0 cs ih =>
    intro s c hc
    simp only [patchedContainers, List.mem_cons] at hc
    rcases hc with hc | hc
    · exact ⟨0, by simp, by simpa using hc⟩
    · obtain ⟨k, hk, he⟩ := ih (s + 1) c hc
      refine ⟨k + 1, by simpa using hk, ?_⟩
      have e : s + 1 + k = s + (k + 1) := by omega
      rw [e] at he
      simpa using he

/-- A patch that does not lie under the path of an element leaves the element as it is. -/
theorem applyToContainer_foreign (key : String) (i : Nat) (c : Container) (p : patchOperation)
    (h : ¬ beginsWith p.Path (containerPath key i)) : applyToContainer key i c p = c := by
  have hne : ∀ suf : String, beginsWith suf "/" →
      p.Path ≠ "/spec/" ++ key ++ "/" ++ fmtD i ++ suf := by
    intro suf hsuf he
    apply h
    rw [he]
    unfold beginsWith at hsuf ⊢
    simpa [containerPath_data, String.data_append, fmtD_data] using hsuf
  unfold applyToContainer
  rw [if_neg (hne _ (by simp [beginsWith])), if_neg (hne _ (by simp [beginsWith])),
    if_neg (hne _ (by simp [beginsWith])), if_neg (hne _ (by simp [beginsWith]))]
  simp

theorem foldl_applyToContainer_patchesFor (key : String) (i : Nat) (ps : List patchOperation) :
    ∀ c : Container,
    ps.foldl (applyToContainer key i) c = (patchesFor key i ps).foldl (applyToContainer key i) c := by
  induction ps with
  | nil => intro c; rfl
  | cons p ps ih =>
    intro c
    by_cases hb : beginsWith p.Path (containerPath key i)
    · have : patchesFor key i (p :: ps) = p :: patchesFor key i ps := by
        simp [patchesFor, hb]
      rw [this, List.foldl_cons, List.foldl_cons, ih]
    · have : patchesFor key i (p :: ps) = patchesFor key i ps := by
        simp [patchesFor, hb]
      rw [this, List.foldl_cons, applyToContainer_foreign key i c p hb, ih]

/-- The patches that the loop body emits for a container, applied to it, give a container
that sets the three fields. -/
theorem patched_allThreeSet (key : String) (i : Nat) (c : Container) :
    allThreeSet ((patchContainersBody key i c []).foldl (applyToContainer key i) c) := by
  obtain ⟨name, sco⟩ := c
  cases sco with
  | none =>
    rw [patchContainersBody_none key i _ rfl]
    simp [applyToContainer, allThreeSet, defaultContext]
  | some sc =>
    rw [patchContainersBody_some key i _ sc rfl]
    by_cases ha : sc.AllowPrivilegeEscalation = none <;>
    by_cases hc : sc.Capabilities = none <;>
    by_cases hs : sc.SeccompProfile = none <;>
    simp [ha, hc, hs, applyToContainer, allThreeSet, path_eq_iff]

/-- A patch outside the pod-level security context leaves that context as it is. -/
theorem applyToPodContext_foreign (sc : Option PodSecurityContext) (p : patchOperation)
    (h : ¬ beginsWith p.Path "/spec/securityContext") : applyToPodContext sc p = sc := by
  have h1 : p.Path ≠ "/spec/securityContext/runAsNonRoot" := by
    intro he
    exact h (by rw [he]; simp [beginsWith])
  have h2 : p.Path ≠ "/spec/securityContext/runAsUser" := by
    intro he
    exact h (by rw [he]; simp [beginsWith])
  simp [applyToPodContext, h1, h2]

theorem foldl_applyToPodContext_foreign (ps : List patchOperation)
    (h : ∀ p ∈ ps, ¬ beginsWith p.Path "/spec/securityContext") :
    ∀ sc : Option PodSecurityContext, ps.foldl applyToPodContext sc = sc := by
  induction ps with
  | nil => intro sc; rfl
  | cons p ps ih =>
    intro sc
    rw [List.foldl_cons, applyToPodContext_foreign sc p (h p (by simp)),
      ih (fun q hq => h q (by simp [hq]))]


/-! ## Patches that can be applied -/

theorem applyToPodContext_isSome (sc : Option PodSecurityContext) (p : patchOperation)
    (h : sc.isSome = true) : (applyToPodContext sc p).isSome = true := by
  cases sc with
  | none => simp at h
  | some s =>
    unfold applyToPodContext
    split_ifs
    · cases p.Value <;> rfl
    · cases p.Value <;> rfl
    · rfl
    · rfl

theorem applyToContainer_isSome (key : String) (i : Nat) (c : Container) (p : patchOperation)
    (h : c.SecurityContext.isSome = true) :
    (applyToContainer key i c p).SecurityContext.isSome = true := by
  cases hsc : c.SecurityContext with
  | none => simp [hsc] at h
  | some sc =>
    unfold applyToContainer
    split_ifs <;> cases p.Value <;> simp [hsc]

theorem elementAddressed_mono (key : String) (i : Nat) (c : Container) (p q : patchOperation)
    (h : elementAddressed key i c q = true) :
    elementAddressed key i (applyToContainer key i c p) q = true := by
  unfold elementAddressed at h ⊢
  rw [Bool.or_eq_true] at h ⊢
  rcases h with h | h
  · exact Or.inl h
  · rw [Bool.and_eq_true] at h
    exact Or.inr (Bool.and_eq_true _ _ ▸ ⟨applyToContainer_isSome key i c p h.1, h.2⟩)

theorem collectionAddressed_mono (key : String) (p q : patchOperation) :
    ∀ (cs : List Container) (s : Nat), collectionAddressed key q s cs = true →
      collectionAddressed key q s (applyToContainers key p s cs) = true := by
  intro cs
  induction cs with
  | nil => intro s h; simp [collectionAddressed] at h
  | cons c cs ih =>
    intro s h
    simp only [collectionAddressed, applyToContainers, Bool.or_eq_true] at h ⊢
    rcases h with h | h
    · exact Or.inl (elementAddressed_mono key s c p q h)
    · exact Or.inr (ih (s + 1) h)

/-- A patch that can be applied to a pod can still be applied after another patch. -/
theorem applicable_mono (pod : Pod) (p q : patchOperation) (h : applicable pod q = true) :
    applicable (patchEffect pod p) q = true := by
  simp only [applicable, Bool.and_eq_true, Bool.or_eq_true, patchEffect] at h ⊢
  refine ⟨h.1, ?_⟩
  rcases h.2 with (h2 | h2) | h2
  · left; left
    simp only [podContextAddressed, Bool.and_eq_true] at h2 ⊢
    exact ⟨applyToPodContext_isSome _ p h2.1, h2.2⟩
  · left; right
    exact collectionAddressed_mono _ p q _ 0 h2
  · right
    exact collectionAddressed_mono _ p q _ 0 h2

/-- When every patch can be applied to the pod, the application succeeds and yields the
effect of the patches. -/
theorem applyPatches_of_applicable (ps : List patchOperation) : ∀ pod : Pod,
    (∀ p ∈ ps, applicable pod p = true) → applyPatches pod ps = some (patchEffects pod ps) := by
  induction ps with
  | nil => intro pod _; rfl
  | cons p ps ih =>
    intro pod h
    have hp : applicable pod p = true := h p (by simp)
    simp only [applyPatches, applyPatch, hp, if_true]
    rw [ih (patchEffect pod p) (fun q hq => applicable_mono pod p q (h q (by simp [hq])))]
    rfl

theorem collectionAddressed_of_element (key : String) (p : patchOperation) :
    ∀ (cs : List Container) (s k : Nat) (h : k < cs.length),
      elementAddressed key (s + k) (cs.get ⟨k, h⟩) p = true →
      collectionAddressed key p s cs = true := by
  intro cs
  induction cs with
  | nil => intro s k h; simp at h
  | cons c cs ih =>
    intro s k h he
    simp only [collectionAddressed, Bool.or_eq_true]
    cases k with
    | zero => exact Or.inl (by simpa using he)
    | succ k =>
      right
      have hk : k < cs.length := by simpa using h
      have e : s + (k + 1) = s + 1 + k := by omega
      rw [e] at he
      exact ih (s + 1) k hk (by simpa using he)

/-- The patches that the loop body emits for a container are adds that address it. -/
theorem patchContainersBody_addressed (key : String) (i : Nat) (c : Container) :
    ∀ p ∈ patchContainersBody key i c [],
      p.Op = "add" ∧ elementAddressed key i c p = true := by
  cases h : c.SecurityContext with
  | none =>
    rw [patchContainersBody_none key i c h]
    simp [elementAddressed]
  | some sc =>
    rw [patchContainersBody_some key i c sc h]
    split_ifs <;> simp [elementAddressed, h, path_eq_iff]

theorem patchContainers_applicable (key : String) (cs : List Container) :
    ∀ p ∈ patchContainers key cs, p.Op = "add" ∧ collectionAddressed key p 0 cs = true := by
  intro p hp
  obtain ⟨k, hk, hmem⟩ := patchContainersLoop_mem key cs 0 p hp
  obtain ⟨h1, h2⟩ := patchContainersBody_addressed key (0 + k) _ p hmem
  exact ⟨h1, collectionAddressed_of_element key p cs 0 k hk h2⟩

/-- On a pod that has a pod-level security context, every patch of a successful output
can be applied, so the application of the output succeeds. -/
theorem apply_ok_applicable (decode : List Nat → Except String Pod) (Intn : Int → Int)
    (req : AdmissionRequest) (pod : Pod) (hres : req.Resource = podResource)
    (hdec : decode req.Object.Raw = Except.ok pod)
    (hok : (ApplySecurityDefaults decode Intn req).err = none)
    (hctx : pod.Spec.SecurityContext ≠ none) :
    applyPatches pod (ApplySecurityDefaults decode Intn req).patches
      = some (patchEffects pod (ApplySecurityDefaults decode Intn req).patches) := by
  apply applyPatches_of_applicable
  have hsome : pod.Spec.SecurityContext.isSome = true := by
    cases h : pod.Spec.SecurityContext with
    | none => exact absurd h hctx
    | some s => rfl
  rw [apply_ok_podWide decode Intn req pod hres hdec hok]
  intro p hp
  rcases List.mem_append.1 hp with hp1 | hp3
  on_goal 1 => rcases List.mem_append.1 hp1 with hp0 | hp2
  · clear hp hp1
    revert p
    cases podRunAsNonRoot pod <;> cases podRunAsUser pod <;>
      simp [applicable, podContextAddressed, hsome]
  · obtain ⟨h1, h2⟩ := patchContainers_applicable _ _ p hp2
    simp [applicable, h1, h2]
  · obtain ⟨h1, h2⟩ := patchContainers_applicable _ _ p hp3
    simp [applicable, h1, h2]

/-! ## The patched pod -/

theorem zeroIntn_spec : IntnSpec zeroIntn := by
  intro n hn
  simp only [zeroIntn]
  omega

/-- The posture after the effect of the output on a pod that has a pod-level security
context: `runAsNonRoot` is set, it is not true together with a `runAsUser` of 0, an
explicit `runAsUser` is kept, and a `runAsUser` that was unset is the synthesized value
when `runAsNonRoot` was unset too and stays unset otherwise. -/
theorem patched_posture (decode : List Nat → Except String Pod) (Intn : Int → Int)
    (req : AdmissionRequest) (pod : Pod) (hrand : IntnSpec Intn)
    (hres : req.Resource = podResource) (hdec : decode req.Object.Raw = Except.ok pod)
    (hok : (ApplySecurityDefaults decode Intn req).err = none)
    (hctx : pod.Spec.SecurityContext ≠ none) :
    (∃ b, podRunAsNonRoot (patchEffects pod (ApplySecurityDefaults decode Intn req).patches)
            = some b
          ∧ ¬ (b = true
            ∧ podRunAsUser (patchEffects pod (ApplySecurityDefaults decode Intn req).patches)
              = some 0))
    ∧ podRunAsUser (patchEffects pod (ApplySecurityDefaults decode Intn req).patches)
        = (match podRunAsUser pod, podRunAsNonRoot pod with
           | some u, _ => some u
           | none, none => some (random Intn)
           | none, some _ => none) := by
  have hshape := apply_ok_podWide decode Intn req pod hres hdec hok
  have hpc := patchContainers_not_podWide pod.Spec.Containers
  have hpi := patchContainers_not_podWide pod.Spec.InitContainers
  have hr := random_range Intn hrand
  have hsc := patchEffects_securityContext (ApplySecurityDefaults decode Intn req).patches pod
  rw [hshape, List.foldl_append, List.foldl_append,
    foldl_applyToPodContext_foreign _ hpi.2, foldl_applyToPodContext_foreign _ hpc.1] at hsc
  rw [← hshape] at hsc
  cases hn : podRunAsNonRoot pod with
  | some b =>
    rw [hn] at hsc
    simp only [List.foldl_nil] at hsc
    have hconf : ¬ (b = true ∧ podRunAsUser pod = some 0) := by
      intro hc
      rw [apply_set decode Intn req pod b hres hdec hn, if_pos hc] at hok
      simp at hok
    have e1 : podRunAsNonRoot (patchEffects pod (ApplySecurityDefaults decode Intn req).patches)
        = some b := by
      rw [← hn]
      simp only [podRunAsNonRoot, hsc]
    have e2 : podRunAsUser (patchEffects pod (ApplySecurityDefaults decode Intn req).patches)
        = podRunAsUser pod := by
      simp only [podRunAsUser, hsc]
    rw [e1, e2]
    refine ⟨⟨b, rfl, hconf⟩, ?_⟩
    cases podRunAsUser pod <;> rfl
  | none =>
    rw [hn] at hsc
    cases hcx : pod.Spec.SecurityContext with
    | none => exact absurd hcx hctx
    | some s =>
      rw [hcx] at hsc
      have hne : ¬ ("/spec/securityContext/runAsUser" = "/spec/securityContext/runAsNonRoot") := by
        decide
      cases hu : podRunAsUser pod with
      | some u =>
        rw [hu] at hsc
        have hsu : s.RunAsUser = some u := by simpa [podRunAsUser, hcx] using hu
        simp only [List.foldl_cons, List.foldl_nil, applyToPodContext, if_true, hsu] at hsc
        simp only [podRunAsNonRoot, podRunAsUser, hsc]
        refine ⟨⟨decide (u ≠ 0), rfl, ?_⟩, trivial⟩
        rintro ⟨h1, h2⟩
        simp only [Option.some.injEq] at h2
        simp [h2] at h1
      | none =>
        rw [hu] at hsc
        simp only [List.foldl_cons, List.foldl_nil, applyToPodContext, if_true, if_neg hne]
          at hsc
        simp only [podRunAsNonRoot, podRunAsUser, hsc]
        refine ⟨⟨true, rfl, ?_⟩, trivial⟩
        rintro ⟨_, h2⟩
        simp only [Option.some.injEq] at h2
        omega

/-- After the effect of the output, re-evaluation emits nothing for the two collections. -/
theorem patched_containers_quiet (decode : List Nat → Except String Pod) (Intn : Int → Int)
    (req : AdmissionRequest) (pod : Pod) (hres : req.Resource = podResource)
    (hdec : decode req.Object.Raw = Except.ok pod)
    (hok : (ApplySecurityDefaults decode Intn req).err = none) :
    patchContainers "containers"
        (patchEffects pod (ApplySecurityDefaults decode Intn req).patches).Spec.Containers = []
    ∧ patchContainers "initContainers"
        (patchEffects pod (ApplySecurityDefaults decode Intn req).patches).Spec.InitContainers
        = [] := by
  have hfor := apply_ok_patchesFor decode Intn req pod hres hdec hok
  have hcs := patchEffects_containers (ApplySecurityDefaults decode Intn req).patches pod
  rw [hcs.1, hcs.2]
  constructor
  · refine patchContainers_nil_of_allThreeSet _ _ 0 ?_
    intro c hc
    obtain ⟨k, hk, he⟩ := mem_patchedContainers _ _ _ 0 c hc
    rw [Nat.zero_add, foldl_applyToContainer_patchesFor, hfor.1 k hk] at he
    rw [he]
    exact patched_allThreeSet _ k _
  · refine patchContainers_nil_of_allThreeSet _ _ 0 ?_
    intro c hc
    obtain ⟨k, hk, he⟩ := mem_patchedContainers _ _ _ 0 c hc
    rw [Nat.zero_add, foldl_applyToContainer_patchesFor, hfor.2 k hk] at he
    rw [he]
    exact patched_allThreeSet _ k _

/-- C12, as amended: idempotence on pods that have a pod-level security context. For
every such pod on which `ApplySecurityDefaults` succeeds, with a random source within
the contract of `rand.Intn`, the returned add patches can be applied to the pod, and the
patched pod is evaluated, in any request for pods and with any random source, to the
empty patch list and no error. -/
theorem C12_idempotent (decode : List Nat → Except String Pod) (Intn : Int → Int)
    (req : AdmissionRequest) (pod : Pod) (hrand : IntnSpec Intn)
    (hres : req.Resource = podResource) (hdec : decode req.Object.Raw = Except.ok pod)
    (hok : (ApplySecurityDefaults decode Intn req).err = none)
    (hctx : pod.Spec.SecurityContext ≠ none) :
    ∃ patched : Pod,
      applyPatches pod (ApplySecurityDefaults decode Intn req).patches = some patched
      ∧ ∀ (decode2 : List Nat → Except String Pod) (Intn2 : Int → Int)
          (req2 : AdmissionRequest), req2.Resource = podResource →
          decode2 req2.Object.Raw = Except.ok patched →
          ApplySecurityDefaults decode2 Intn2 req2 = { patches := [], err := none } := by
  refine ⟨_, apply_ok_applicable decode Intn req pod hres hdec hok hctx, ?_⟩
  intro decode2 Intn2 req2 hres2 hdec2
  obtain ⟨⟨b, hb, hconf⟩, _⟩ := patched_posture decode Intn req pod hrand hres hdec hok hctx
  obtain ⟨h1, h2⟩ := patched_containers_quiet decode Intn req pod hres hdec hok
  rw [apply_set decode2 Intn2 req2 _ b hres2 hdec2 hb, if_neg hconf, h1, h2]
  rfl

theorem C12_idempotent_witness :
    IntnSpec sampleIntn ∧ sampleReq.Resource = podResource
    ∧ (ApplySecurityDefaults (sampleDecode (podWith none none)) sampleIntn sampleReq).err = none
    ∧ (podWith none none).Spec.SecurityContext ≠ none
    ∧ ∃ patched : Pod,
        applyPatches (podWith none none)
          (ApplySecurityDefaults (sampleDecode (podWith none none)) sampleIntn sampleReq).patches
          = some patched
        ∧ ApplySecurityDefaults (sampleDecode patched) zeroIntn sampleReq
          = { patches := [], err := none } := by
  obtain ⟨patched, h1, h2⟩ := C12_idempotent (sampleDecode (podWith none none)) sampleIntn
    sampleReq (podWith none none) sampleIntn_spec rfl rfl rfl (by decide)
  exact ⟨sampleIntn_spec, rfl, rfl, by decide, patched, h1,
    h2 (sampleDecode patched) zeroIntn sampleReq rfl rfl⟩

/-- Against C12 as stated: on a pod without pod-level security context
`ApplySecurityDefaults` succeeds, but its first patch,
add `/spec/securityContext/runAsNonRoot`, addresses a field of an object that the pod
does not have, so the returned patches cannot be applied and there is no patched pod to
evaluate; and the effect of the patches that do address something leaves the pod-level
fields unset, so that re-evaluation emits patches again. -/
theorem C12_no_context_counterexample :
    (ApplySecurityDefaults (sampleDecode podBare) sampleIntn sampleReq).err = none
    ∧ applyPatches podBare
        (ApplySecurityDefaults (sampleDecode podBare) sampleIntn sampleReq).patches = none
    ∧ (¬ ∃ patched : Pod,
        applyPatches podBare
          (ApplySecurityDefaults (sampleDecode podBare) sampleIntn sampleReq).patches
          = some patched
        ∧ ApplySecurityDefaults (sampleDecode patched) sampleIntn sampleReq
          = { patches := [], err := none })
    ∧ (ApplySecurityDefaults
        (sampleDecode (patchEffects podBare
          (ApplySecurityDefaults (sampleDecode podBare) sampleIntn sampleReq).patches))
        sampleIntn sampleReq).patches.length = 2 := by
  have hnone : applyPatches podBare
      (ApplySecurityDefaults (sampleDecode podBare) sampleIntn sampleReq).patches = none := rfl
  refine ⟨rfl, hnone, ?_, rfl⟩
  rintro ⟨patched, h, _⟩
  rw [hnone] at h
  cases h

/-- C13, as amended: for every pod that has a pod-level security context and on which
`ApplySecurityDefaults` succeeds, with a random source within the contract of
`rand.Intn`, the returned patches can be applied, and the patched pod has `runAsNonRoot`
set and is not in the state `runAsNonRoot` = true with `runAsUser` = 0; its `runAsUser`
is the explicit value of the input when there is one, the synthesized value when
`runAsUser` and `runAsNonRoot` were both unset, and stays unset otherwise. -/
theorem C13_patched_posture_consistent (decode : List Nat → Except String Pod)
    (Intn : Int → Int) (req : AdmissionRequest) (pod : Pod) (hrand : IntnSpec Intn)
    (hres : req.Resource = podResource) (hdec : decode req.Object.Raw = Except.ok pod)
    (hok : (ApplySecurityDefaults decode Intn req).err = none)
    (hctx : pod.Spec.SecurityContext ≠ none) :
    ∃ patched : Pod,
      applyPatches pod (ApplySecurityDefaults decode Intn req).patches = some patched
      ∧ podRunAsNonRoot patched ≠ none
      ∧ ¬ (podRunAsNonRoot patched = some true ∧ podRunAsUser patched = some 0)
      ∧ podRunAsUser patched
          = (match podRunAsUser pod, podRunAsNonRoot pod with
             | some u, _ => some u
             | none, none => some (random Intn)
             | none, some _ => none) := by
  obtain ⟨⟨b, hb, hconf⟩, hu⟩ := patched_posture decode Intn req pod hrand hres hdec hok hctx
  refine ⟨_, apply_ok_applicable decode Intn req pod hres hdec hok hctx,
    by rw [hb]; simp, ?_, hu⟩
  rintro ⟨h1, h2⟩
  rw [hb] at h1
  exact hconf ⟨Option.some.inj h1, h2⟩

theorem C13_patched_posture_consistent_witness :
    IntnSpec zeroIntn ∧ sampleReq.Resource = podResource
    ∧ (ApplySecurityDefaults (sampleDecode (podWith none (some 0))) zeroIntn sampleReq).err
        = none
    ∧ (podWith none (some 0)).Spec.SecurityContext ≠ none
    ∧ ∃ patched : Pod,
        applyPatches (podWith none (some 0))
          (ApplySecurityDefaults (sampleDecode (podWith none (some 0))) zeroIntn
            sampleReq).patches = some patched
        ∧ podRunAsNonRoot patched ≠ none
        ∧ ¬ (podRunAsNonRoot patched = some true ∧ podRunAsUser patched = some 0) := by
  obtain ⟨patched, h1, h2, h3, _⟩ := C13_patched_posture_consistent
    (sampleDecode (podWith none (some 0))) zeroIntn sampleReq (podWith none (some 0))
    zeroIntn_spec rfl rfl rfl (by decide)
  exact ⟨zeroIntn_spec, rfl, rfl, by decide, patched, h1, h2, h3⟩

/-- Against C13 as stated: on a pod without pod-level security context (and without
containers) `ApplySecurityDefaults` succeeds with the two pod-level patches, but they
address fields of an object that the pod does not have: the returned patches cannot be
applied, so no patched pod has `runAsNonRoot` set, and their effect on the pod leaves
`runAsNonRoot` unset. -/
theorem C13_no_context_counterexample :
    (ApplySecurityDefaults (sampleDecode podEmpty) zeroIntn sampleReq).err = none
    ∧ applyPatches podEmpty
        (ApplySecurityDefaults (sampleDecode podEmpty) zeroIntn sampleReq).patches = none
    ∧ (¬ ∃ patched : Pod,
        applyPatches podEmpty
          (ApplySecurityDefaults (sampleDecode podEmpty) zeroIntn sampleReq).patches
          = some patched
        ∧ podRunAsNonRoot patched ≠ none)
    ∧ podRunAsNonRoot (patchEffects podEmpty
        (ApplySecurityDefaults (sampleDecode podEmpty) zeroIntn sampleReq).patches) = none := by
  have hnone : applyPatches podEmpty
      (ApplySecurityDefaults (sampleDecode podEmpty) zeroIntn sampleReq).patches = none := rfl
  refine ⟨rfl, hnone, ?_, rfl⟩
  rintro ⟨patched, h, _⟩
  rw [hnone] at h
  cases h

end Controller
